import Mathlib

/-!
# Verification of the `uset` sparse integer set / map library

This file gives a shallow embedding of the core collection types of the
`uset` Rust crate (`src/core/uset.rs` and `src/core/umap.rs`) and proves or
refutes the specification claims about them.

Modelling conventions:

* Rust `Vec<bool>` / `Vec<Option<T>>` buffers are modelled as `List Bool` /
  `List (Option α)`; `usize` becomes `Nat` (all arithmetic in the source is
  on small in-range values; `usize` subtraction appears only where the source
  has already established `a ≥ b`, so `Nat` truncated subtraction agrees).
* An indexed read `vec[i]` is modelled as `List.getD i` at the call sites
  where the source has already bounds-checked the index.  The two read sites
  where the source can actually fault with an out-of-bounds panic on
  reachable states — `USet::contains` (and hence the guard of
  `USet::remove`) and the `unwrap` inside `USet::from_fields` — are
  additionally modelled exactly, as `Option`-returning functions
  (`USet.containsChecked`, `USet.removeChecked`, `USet.from_fieldsChecked`)
  where `none` models the panic.
* `USet::new()` clones the shared `EMPTY_SET`, which is
  `USet::with_capacity(0)`; with value semantics this is just
  `USet.with_capacity 0`, called `USet.empty` below.
-/

/-- Number of `true` entries of a boolean buffer (the quantity the source
tracks in the `len` field of a `USet`). -/
def countTrue (l : List Bool) : Nat := l.countP (fun b => b)

/-- Number of `Some` entries of an option buffer (the quantity the source
tracks in the `len` field of a `UMap`). -/
def countSome {α : Type} (l : List (Option α)) : Nat := l.countP (fun o => o.isSome)

/-- The `USet` struct of `src/core/uset.rs`: a vector of booleans with
offset/bounds bookkeeping (`vec[n - offset] = true` means `n` is a member). -/
structure USet where
  vec : List Bool
  len : Nat
  offset : Nat
  min : Nat
  max : Nat
deriving Repr, DecidableEq

/-- `USet::with_capacity(size)`: all-false buffer of the given size, zeroed
bookkeeping. -/
def USet.with_capacity (size : Nat) : USet :=
  { vec := List.replicate size false, len := 0, offset := 0, min := 0, max := 0 }

/-- `USet::new()` (a clone of the shared `EMPTY_SET`, i.e.
`USet::with_capacity(0)`). -/
def USet.empty : USet := USet.with_capacity 0

/-- `USet::capacity()`. -/
def USet.capacity (s : USet) : Nat := s.vec.length

/-- `USet::is_empty()`. -/
def USet.is_empty (s : USet) : Bool := s.len == 0

/-- `USet::contains(id)`, totalised: the source computes
`id >= self.min && id <= self.max && self.vec[id - self.offset]`, and the
final indexed read is modelled with `getD … false`.  See
`USet.containsChecked` for the exact panic-aware version. -/
def USet.contains (s : USet) (id : Nat) : Bool :=
  decide (s.min ≤ id) && decide (id ≤ s.max) && s.vec.getD (id - s.offset) false

/-- `USet::contains(id)` modelled exactly: when the bounds guard passes, the
read `self.vec[id - self.offset]` panics if the index is out of range of the
buffer; `none` models that panic. -/
def USet.containsChecked (s : USet) (id : Nat) : Option Bool :=
  if s.min ≤ id ∧ id ≤ s.max then s.vec.get? (id - s.offset) else some false

/-- The buffer built by the `id < self.offset` branch of `USet::push`: a new
buffer of `max - id + 1` slots, `vec[0] = true`, then
`vec[i - id] = self.contains(i)` for `i in min..=max`. -/
def USet.pushLowVec (s : USet) (id : Nat) : List Bool :=
  (List.range' s.min (s.max - s.min + 1)).foldl
    (fun v i => v.set (i - id) (s.contains i))
    ((List.replicate (s.max - id + 1) false).set 0 true)

/-- `USet::push(id)` (`uset.rs` lines 435-480): the five-way match on the
state of the buffer.  `INITIAL_WORKING_CAPACITY = 8`. -/
def USet.push (s : USet) (id : Nat) : USet :=
  if s.vec.length = 0 then
    { vec := (List.replicate 8 false).set 0 true, len := s.len + 1,
      offset := id, min := id, max := id }
  else if s.len = 0 then
    { vec := s.vec.set 0 true, len := 1, offset := id, min := id, max := id }
  else if id < s.offset then
    { vec := s.pushLowVec id, len := s.len + 1, offset := id, min := id, max := s.max }
  else if s.offset + s.vec.length ≤ id then
    -- `self.vec.resize(id + 1 - self.offset, false)` then set the new slot
    { vec := (s.vec ++ List.replicate (id + 1 - s.offset - s.vec.length) false).set
        (id - s.offset) true,
      len := s.len + 1, offset := s.offset, min := s.min, max := id }
  else if s.vec.getD (id - s.offset) false = false then
    { vec := s.vec.set (id - s.offset) true, len := s.len + 1, offset := s.offset,
      min := if id < s.min then id else s.min,
      max := if id < s.min then s.max else if s.max < id then id else s.max }
  else s

/-- `USet::remove(id)` (`uset.rs` lines 493-524), totalised in the same way
as `USet.contains`.  The boundary rescans `(self.min..self.max)` (exclusive
upper end) read the buffer after the slot has been cleared. -/
def USet.remove (s : USet) (id : Nat) : USet :=
  if id < s.min ∨ s.max < id ∨ s.contains id = false then s
  else if s.len = 1 then
    { vec := s.vec.set (id - s.offset) false, len := 0, offset := 0, min := 0, max := 0 }
  else if s.min < id ∧ id < s.max then
    { s with vec := s.vec.set (id - s.offset) false, len := s.len - 1 }
  else if id = s.min then
    let v := s.vec.set (id - s.offset) false
    { vec := v, len := s.len - 1, offset := s.offset,
      min := ((List.range' s.min (s.max - s.min)).find?
        (fun i => v.getD (i - s.offset) false)).getD s.max,
      max := s.max }
  else if id = s.max then
    let v := s.vec.set (id - s.offset) false
    { vec := v, len := s.len - 1, offset := s.offset, min := s.min,
      max := (((List.range' s.min (s.max - s.min)).reverse).find?
        (fun i => v.getD (i - s.offset) false)).getD s.min }
  else s

/-- `USet::remove(id)` with the panic of its `contains` guard modelled
exactly: the guard `id < self.min || id > self.max || !self.contains(id)`
short-circuits, so `contains` (and its possibly-faulting buffer read) is
only evaluated when `min ≤ id ≤ max`. -/
def USet.removeChecked (s : USet) (id : Nat) : Option USet :=
  if id < s.min ∨ s.max < id then some s
  else (s.vec.get? (id - s.offset)).map (fun _ => s.remove id)

/-- `USet::min()` — `None` iff the set is empty, else the `min` field. -/
def USet.minVal (s : USet) : Option Nat := if s.len = 0 then none else some s.min

/-- `USet::max()` — `None` iff the set is empty, else the `max` field. -/
def USet.maxVal (s : USet) : Option Nat := if s.len = 0 then none else some s.max

/-- The ascending list of keys produced by `USetIter` (scan the buffer from
index 0 upwards, yield `index + offset` for every `true` slot). -/
def USet.elems (s : USet) : List Nat :=
  ((List.range s.vec.length).filter (fun i => s.vec.getD i false)).map (fun i => i + s.offset)

/-- `USet::make_from_slice` (`uset.rs` lines 712-724).  `itertools`'
`minmax()` distinguishes an empty iterator, a one-element iterator, and the
general case (where it returns the true minimum and maximum). -/
def USet.make_from_slice (slice : List Nat) : Nat × Nat × Nat × List Bool :=
  match slice with
  | [] => (0, 0, 0, [])
  | [x] => (x, x, 1, [true])
  | x :: xs =>
    let mn := xs.foldl Nat.min x
    let mx := xs.foldl Nat.max x
    let cap := Nat.max 8 (mx + 1 - mn)
    let vec := (x :: xs).foldl (fun v id => v.set (id - mn) true)
      (List.replicate cap false)
    (mn, mx, (x :: xs).length, vec)

/-- `USet::from_slice`. -/
def USet.from_slice (slice : List Nat) : USet :=
  match slice with
  | [] => USet.empty
  | x :: xs =>
    let r := USet.make_from_slice (x :: xs)
    { vec := r.2.2.2, len := r.2.2.1, offset := r.1, min := r.1, max := r.2.1 }

/-- `USet::from_range(r)` for `r = start..stop` (`uset.rs` lines 771-790).
Note the source sets the `max` field to `r.end`, not `r.end - 1`. -/
def USet.from_range (start stop : Nat) : USet :=
  if stop - start = 0 then USet.empty
  else
    let ln := stop - start
    let cap := Nat.max 8 ln
    let vec := (List.range' start ln).foldl (fun v id => v.set (id - start) true)
      (List.replicate cap false)
    { vec := vec, len := ln, offset := start, min := start, max := stop }

/-- `USet::from_fields(vec, offset)` (`uset.rs` lines 808-834), modelled
exactly: on a non-empty buffer the source `unwrap`s the first and last `true`
positions, which panics (`none` here) when the buffer holds no `true` slot. -/
def USet.from_fieldsChecked (vec : List Bool) (offset : Nat) : Option USet :=
  if vec.length = 0 then some USet.empty
  else
    match (List.range vec.length).find? (fun i => vec.getD i false),
        ((List.range vec.length).reverse).find? (fun i => vec.getD i false) with
    | some mn, some mx =>
      some { vec := vec, len := countTrue vec, offset := offset,
             min := mn + offset, max := mx + offset }
    | _, _ => none

/-- `USet::push_all(slice)` (`uset.rs` lines 861-905).  In the reallocation
branch the source copies the old entries with
`self.iter().skip(self.min - self.offset).take(self.max - self.min + 1)` —
a skip/take over the *element* iterator. -/
def USet.push_all (s : USet) (slice : List Nat) : USet :=
  match slice with
  | [] => s
  | x :: xs =>
    if s.len = 0 then
      let r := USet.make_from_slice (x :: xs)
      { vec := r.2.2.2, len := r.2.2.1, offset := r.1, min := r.1, max := r.2.1 }
    else
      let mn := xs.foldl Nat.min x
      let mx := xs.foldl Nat.max x
      if s.min ≤ mn ∧ mx ≤ s.max then
        let r := (x :: xs).foldl
          (fun (p : List Bool × Nat) id =>
            if p.1.getD (id - s.offset) false = false then
              (p.1.set (id - s.offset) true, p.2 + 1)
            else p)
          (s.vec, s.len)
        { s with vec := r.1, len := r.2 }
      else
        let nmn := Nat.min s.min mn
        let nmx := Nat.max s.max mx
        let copied := (((s.elems).drop (s.min - s.offset)).take (s.max - s.min + 1)).foldl
          (fun v id => v.set (id - nmn) true)
          (List.replicate (nmx - nmn + 1) false)
        let r := (x :: xs).foldl
          (fun (p : List Bool × Nat) id =>
            if p.1.getD (id - nmn) false = false then
              (p.1.set (id - nmn) true, p.2 + 1)
            else p)
          (copied, s.len)
        { vec := r.1, len := r.2, offset := nmn, min := nmn, max := nmx }

/-- `USet::union` (`uset.rs` lines 907-942), the implementation of the `+`
operator. -/
def USet.union (a b : USet) : USet :=
  if a.len = 0 then (if b.len = 0 then USet.empty else b)
  else if b.len = 0 then a
  else
    let mn := Nat.min a.min b.min
    let mx := Nat.max a.max b.max
    let vec := (List.range (mx + 1 - mn)).map
      (fun j => a.contains (j + mn) || b.contains (j + mn))
    { vec := vec, len := countTrue vec, offset := mn, min := mn, max := mx }

/-- `USet::common_part` (`uset.rs` lines 981-1017), the implementation of the
`*` (intersection) operator. -/
def USet.common_part (a b : USet) : USet :=
  if a.len = 0 ∨ b.len = 0 then USet.empty
  else
    let lo := Nat.max a.min b.min
    let hi := Nat.min a.max b.max
    let p := fun id => a.contains id && b.contains id
    match (List.range' lo (hi + 1 - lo)).find? p,
        ((List.range' lo (hi + 1 - lo)).reverse).find? p with
    | some mn, some mx =>
      let vec := (List.range (mx + 1 - mn)).map (fun j => p (j + mn))
      { vec := vec, len := countTrue vec, offset := mn, min := mn, max := mx }
    | _, _ => USet.empty

/-- `USet::xor_set` (`uset.rs` lines 1019-1062), the implementation of the
`^` (symmetric difference) operator. -/
def USet.xor_set (a b : USet) : USet :=
  if a.len = 0 then (if b.len = 0 then USet.empty else b)
  else if b.len = 0 then a
  else
    let lo := Nat.min a.min b.min
    let hi := Nat.max a.max b.max
    let p := fun id => (a.contains id && !(b.contains id)) || (!(a.contains id) && b.contains id)
    match (List.range' lo (hi + 1 - lo)).find? p,
        ((List.range' lo (hi + 1 - lo)).reverse).find? p with
    | some mn, some mx =>
      let vec := (List.range (mx + 1 - mn)).map (fun j => p (j + mn))
      { vec := vec, len := countTrue vec, offset := mn, min := mn, max := mx }
    | _, _ => USet.empty

/-- `PartialEq for USet` (`uset.rs` lines 1065-1084): equal `len`, `min`,
`max` fields and an identical presence pattern over the `[min, max]` window
(`skip(min - offset).take(max + 1 - min)` over each buffer, zipped). -/
def USet.beq (a b : USet) : Bool :=
  decide (a.len = b.len) && decide (a.min = b.min) && decide (a.max = b.max) &&
    (((a.vec.drop (a.min - a.offset)).take (a.max + 1 - a.min)).zip
      ((b.vec.drop (b.min - b.offset)).take (b.max + 1 - b.min))).all
      (fun q => q.1 == q.2)

example : (USet.empty.push 3).contains 3 = true := by decide
example : (USet.empty.push 3).contains 2 = false := by decide
example : ((USet.empty.push 3).push 5).len = 2 := by decide
example : (((USet.empty.push 3).push 5).remove 3).minVal = some 5 := by decide
example : USet.containsChecked USet.empty 0 = none := by decide
example : USet.containsChecked USet.empty 1 = some false := by decide
example : (USet.from_range 3 6).maxVal = some 6 := by decide
example : (USet.from_range 3 6).contains 6 = false := by decide
example : USet.beq (USet.from_slice [1, 2, 3]) ((USet.from_slice [1, 3]).push 2) = true := by decide

example :
    let s := (((USet.empty.push 0).push 2).remove 0).push_all [5]
    s.contains 2 = false ∧ s.contains 5 = true ∧ s.len = 2 := by decide

/-- The `UMap<T>` struct of `src/core/umap.rs`: a vector of `Option<T>` with
the same offset/bounds bookkeeping as `USet`. -/
structure UMap (α : Type) where
  vec : List (Option α)
  len : Nat
  offset : Nat
  min : Nat
  max : Nat
deriving Repr, DecidableEq

/-- `UMap::with_capacity(size)`. -/
def UMap.with_capacity (α : Type) (size : Nat) : UMap α :=
  { vec := List.replicate size none, len := 0, offset := 0, min := 0, max := 0 }

/-- `UMap::new()` = `UMap::with_capacity(0)`. -/
def UMap.new (α : Type) : UMap α := UMap.with_capacity α 0

/-- `UMap::get(id)` (`umap.rs` lines 555-561): bounds-guarded read returning
a clone of the slot.  The source uses `get_unchecked` after the guard; on
states satisfying the data-model invariant the index is in range, and the
read is modelled with `getD … none`. -/
def UMap.get {α : Type} (m : UMap α) (id : Nat) : Option α :=
  if m.min ≤ id ∧ id ≤ m.max then m.vec.getD (id - m.offset) none else none

/-- `UMap::contains(id)`, totalised like `USet.contains`. -/
def UMap.contains {α : Type} (m : UMap α) (id : Nat) : Bool :=
  decide (m.min ≤ id) && decide (id ≤ m.max) && (m.vec.getD (id - m.offset) none).isSome

/-- The buffer built by the `id < self.offset` branch of `UMap::put`: a new
buffer of `max - id + 1` slots, `vec[0] = Some(value)`, then
`vec[i - id] = self.get(i)` for `i in min..=max`. -/
def UMap.putLowVec {α : Type} (m : UMap α) (id : Nat) (value : α) : List (Option α) :=
  (List.range' m.min (m.max - m.min + 1)).foldl
    (fun v i => v.set (i - id) (m.get i))
    ((List.replicate (m.max - id + 1) (none : Option α)).set 0 (some value))

/-- `UMap::put(id, value)` (`umap.rs` lines 480-525): the same five-way match
as `USet::push`, generalised to carry a value.  `INITIAL_CAPACITY = 8`.
Note the final match arm: when the slot already holds a value, `put` does
nothing. -/
def UMap.put {α : Type} (m : UMap α) (id : Nat) (value : α) : UMap α :=
  if m.vec.length = 0 then
    { vec := (List.replicate 8 (none : Option α)).set 0 (some value), len := m.len + 1,
      offset := id, min := id, max := id }
  else if m.len = 0 then
    { vec := m.vec.set 0 (some value), len := 1, offset := id, min := id, max := id }
  else if id < m.offset then
    { vec := m.putLowVec id value, len := m.len + 1, offset := id, min := id, max := m.max }
  else if m.offset + m.vec.length ≤ id then
    { vec := (m.vec ++ List.replicate (id + 1 - m.offset - m.vec.length) none).set
        (id - m.offset) (some value),
      len := m.len + 1, offset := m.offset, min := m.min, max := id }
  else if (m.vec.getD (id - m.offset) none).isNone then
    { vec := m.vec.set (id - m.offset) (some value), len := m.len + 1, offset := m.offset,
      min := if id < m.min then id else m.min,
      max := if id < m.min then m.max else if m.max < id then id else m.max }
  else m

/-- `UMap::push(value)` (`umap.rs` lines 456-460): insert at `self.max + 1`
and return the new identifier. -/
def UMap.push {α : Type} (m : UMap α) (value : α) : UMap α × Nat :=
  (m.put (m.max + 1) value, m.max + 1)

/-- `UMap::remove(id)` (`umap.rs` lines 631-670), totalised like
`USet.remove`; returns the new map and the removed value. -/
def UMap.remove {α : Type} (m : UMap α) (id : Nat) : UMap α × Option α :=
  if id < m.min ∨ m.max < id ∨ m.contains id = false then (m, none)
  else
    let t := m.vec.getD (id - m.offset) none
    if m.len = 1 then
      ({ vec := m.vec.set (id - m.offset) none, len := 0, offset := 0, min := 0, max := 0 }, t)
    else if m.min < id ∧ id < m.max then
      ({ m with vec := m.vec.set (id - m.offset) none, len := m.len - 1 }, t)
    else if id = m.min then
      let v := m.vec.set (id - m.offset) none
      ({ vec := v, len := m.len - 1, offset := m.offset,
         min := ((List.range' m.min (m.max - m.min)).find?
           (fun i => (v.getD (i - m.offset) none).isSome)).getD m.max,
         max := m.max }, t)
    else if id = m.max then
      let v := m.vec.set (id - m.offset) none
      ({ vec := v, len := m.len - 1, offset := m.offset, min := m.min,
         max := (((List.range' m.min (m.max - m.min)).reverse).find?
           (fun i => (v.getD (i - m.offset) none).isSome)).getD m.min }, t)
    else (m, none)

/-- `UMap::keys()` (`umap.rs` lines 683-686): map the buffer to its presence
pattern and hand it to `USet::from_fields` — whose panic is modelled by
`USet.from_fieldsChecked` returning `none`. -/
def UMap.keysChecked {α : Type} (m : UMap α) : Option USet :=
  USet.from_fieldsChecked (m.vec.map (fun o => o.isSome)) m.offset

/-- The ascending association list produced by `UMapIter`. -/
def UMap.elems {α : Type} (m : UMap α) : List (Nat × Option α) :=
  ((List.range m.vec.length).filter (fun i => (m.vec.getD i none).isSome)).map
    (fun i => (i + m.offset, m.vec.getD i none))

/-- `UMap::submap(set)` (`umap.rs` lines 1012-1028): a fresh buffer over the
key-set's `[min, max]` range, `vec[id - min] = self.get(id)` for every `id`
of the set, and — as in the source — `len` taken from `set.len()`. -/
def UMap.submap {α : Type} (m : UMap α) (s : USet) : UMap α :=
  if s.len = 0 then UMap.new α
  else
    let mn := s.min
    let mx := s.max
    let v := (s.elems).foldl (fun w id => w.set (id - mn) (m.get id))
      (List.replicate (mx - mn + 1) (none : Option α))
    { vec := v, len := s.len, offset := mn, min := mn, max := mx }

/-- `UMap::get(id)` modelled exactly: when the bounds guard passes, the
source does an unchecked read `get_unchecked(id - offset)`, which is
undefined behaviour if the index is outside the buffer (reachable on the
zero-capacity canonical empty map at `id = 0`); `none` models that undefined
read, `some` the returned clone. -/
def UMap.getChecked {α : Type} (m : UMap α) (id : Nat) : Option (Option α) :=
  if m.min ≤ id ∧ id ≤ m.max then m.vec.get? (id - m.offset) else some none

/-- `UMap::submap(set)` modelled exactly: each loop step performs
`vec[id - min] = self.get(id)`, and any undefined `get` read (see
`UMap.getChecked`) aborts the whole run with `none`. -/
def UMap.submapChecked {α : Type} (m : UMap α) (s : USet) : Option (UMap α) :=
  if s.len = 0 then some (UMap.new α)
  else
    let mn := s.min
    let mx := s.max
    ((s.elems).foldlM (fun w id => (m.getChecked id).map (fun v => w.set (id - mn) v))
      (List.replicate (mx - mn + 1) (none : Option α))).map
      (fun v => { vec := v, len := s.len, offset := mn, min := mn, max := mx })

example : ((UMap.new Nat).put 1 10).get 1 = some 10 := by decide
example : (((UMap.new Nat).put 1 10).put 1 20).get 1 = some 10 := by decide
example : ((UMap.new Nat).push 7).2 = 1 := by decide
example : (((UMap.new Nat).push 7).1).get 1 = some 7 := by decide
example : UMap.keysChecked ((UMap.new Nat).put 2 5) =
    some { vec := [true, false, false, false, false, false, false, false],
           len := 1, offset := 2, min := 2, max := 2 } := by decide
example : UMap.keysChecked (UMap.with_capacity Nat 1) = none := by decide
example : UMap.keysChecked ((((UMap.new Nat).put 5 1).remove 5).1) = none := by decide
example :
    let m := ((UMap.new Nat).put 2 10)
    let s := (USet.empty.push 2).push 3
    (m.submap s).len = 2 ∧ countSome (m.submap s).vec = 1 := by decide

/-! ## List toolkit

Pointwise characterisation of the buffer-write folds, counting lemmas, and
first/last-hit characterisations of linear scans. -/

theorem length_foldl_set {β : Type} (g : Nat → β) (d : Nat) (L : List Nat) (v0 : List β) :
    (L.foldl (fun w i => w.set (i - d) (g i)) v0).length = v0.length := by
  induction L generalizing v0 with
  | nil => rfl
  | cons i rest ih => simp [List.foldl_cons, ih]

theorem foldl_set_getElem? {β : Type} (g : Nat → β) (d : Nat) (L : List Nat)
    (hnd : L.Nodup) (hlo : ∀ i ∈ L, d ≤ i) (v0 : List β)
    (hhi : ∀ i ∈ L, i - d < v0.length) (j : Nat) :
    (L.foldl (fun w i => w.set (i - d) (g i)) v0)[j]? =
      if j + d ∈ L then some (g (j + d)) else v0[j]? := by
  induction L generalizing v0 with
  | nil => simp
  | cons i rest ih =>
    have hdi : d ≤ i := hlo i (List.mem_cons_self i rest)
    have hlen : i - d < v0.length := hhi i (List.mem_cons_self i rest)
    rw [List.foldl_cons]
    rw [ih hnd.of_cons (fun a ha => hlo a (List.mem_cons_of_mem i ha))
      (v0.set (i - d) (g i))
      (fun a ha => by simpa using hhi a (List.mem_cons_of_mem i ha))]
    by_cases hji : j + d = i
    · have hjd : j = i - d := by omega
      have hni : i ∉ rest := hnd.not_mem
      rw [if_neg (by rw [hji]; exact hni), if_pos (by simp [hji])]
      subst hjd
      rw [List.getElem?_set_eq (by omega)]
      congr 1
      congr 1
      omega
    · by_cases hr : j + d ∈ rest
      · rw [if_pos hr, if_pos (List.mem_cons_of_mem i hr)]
      · rw [if_neg hr, if_neg (by simp [List.mem_cons, hji, hr])]
        exact List.getElem?_set_ne (by omega)

theorem mem_range'_iff {lo n m : Nat} : m ∈ List.range' lo n ↔ lo ≤ m ∧ m < lo + n :=
  List.mem_range'_1

theorem countTrue_eq_countP_range (l : List Bool) :
    countTrue l = (List.range l.length).countP (fun i => l.getD i false) := by
  induction l with
  | nil => rfl
  | cons b t ih =>
    show countTrue (b :: t) = (List.range (t.length + 1)).countP _
    rw [countTrue, List.countP_cons, List.range_succ_eq_map, List.countP_cons,
      List.countP_map]
    rw [show ((fun i => (b :: t).getD i false) ∘ Nat.succ) = (fun i => t.getD i false) by
      funext i; simp [List.getD_cons_succ]]
    rw [← countTrue, ih]
    simp [List.getD_cons_zero]

theorem countSome_eq_countP_range {α : Type} (l : List (Option α)) :
    countSome l = (List.range l.length).countP (fun i => (l.getD i none).isSome) := by
  induction l with
  | nil => rfl
  | cons b t ih =>
    show countSome (b :: t) = (List.range (t.length + 1)).countP _
    rw [countSome, List.countP_cons, List.range_succ_eq_map, List.countP_cons,
      List.countP_map]
    rw [show ((fun i => ((b :: t).getD i none).isSome) ∘ Nat.succ)
        = (fun i => (t.getD i none).isSome) by
      funext i; simp [List.getD_cons_succ]]
    rw [← countSome, ih]
    simp [List.getD_cons_zero]

theorem countP_range'_shift (lo n : Nat) (p : Nat → Bool) :
    (List.range' lo n).countP p = (List.range n).countP (fun i => p (lo + i)) := by
  rw [List.range'_eq_map_range, List.countP_map]
  rfl

theorem countP_or_and {β : Type} (p q : β → Bool) (l : List β) :
    l.countP (fun x => p x || q x) + l.countP (fun x => p x && q x)
      = l.countP p + l.countP q := by
  induction l with
  | nil => rfl
  | cons a t ih =>
    simp only [List.countP_cons]
    cases hp : p a <;> cases hq : q a <;> simp [hp, hq] <;> omega

theorem countP_range'_split (lo a n : Nat) (p : Nat → Bool) (h : a ≤ n) :
    (List.range' lo n).countP p
      = (List.range' lo a).countP p + (List.range' (lo + a) (n - a)).countP p := by
  have h2 : List.range' lo a ++ List.range' (lo + a) (n - a) = List.range' lo n := by
    have h3 := List.range'_append lo a (n - a) 1
    rw [show 1 * a = a by omega] at h3
    rw [show n - a + a = n by omega] at h3
    exact h3
  rw [← h2, List.countP_append]

theorem find?_range'_some {lo n m : Nat} {p : Nat → Bool}
    (h : (List.range' lo n).find? p = some m) :
    p m = true ∧ lo ≤ m ∧ m < lo + n ∧ ∀ j, lo ≤ j → j < m → p j = false := by
  induction n generalizing lo with
  | zero => simp at h
  | succ n ih =>
    rw [List.range'_succ, List.find?_cons] at h
    cases hp : p lo with
    | true =>
      rw [hp] at h
      simp only [Option.some.injEq] at h
      subst h
      exact ⟨hp, Nat.le_refl _, by omega, fun j h1 h2 => absurd h1 (by omega)⟩
    | false =>
      rw [hp] at h
      obtain ⟨h1, h2, h3, h4⟩ := ih h
      refine ⟨h1, by omega, by omega, fun j hj1 hj2 => ?_⟩
      rcases Nat.eq_or_lt_of_le hj1 with heq | hlt
      · rw [← heq]; exact hp
      · exact h4 j hlt hj2

theorem find?_range'_none {lo n : Nat} {p : Nat → Bool}
    (h : (List.range' lo n).find? p = none) :
    ∀ j, lo ≤ j → j < lo + n → p j = false := by
  intro j h1 h2
  have := List.find?_eq_none.mp h j (mem_range'_iff.mpr ⟨h1, h2⟩)
  simpa using this

theorem find?_reverse_range'_some {lo n m : Nat} {p : Nat → Bool}
    (h : ((List.range' lo n).reverse).find? p = some m) :
    p m = true ∧ lo ≤ m ∧ m < lo + n ∧ ∀ j, m < j → j < lo + n → p j = false := by
  induction n with
  | zero => simp at h
  | succ n ih =>
    rw [List.range'_concat, List.reverse_append] at h
    simp only [List.reverse_singleton, List.singleton_append, List.find?_cons] at h
    cases hp : p (lo + 1 * n) with
    | true =>
      rw [hp] at h
      simp only [Option.some.injEq] at h
      subst h
      refine ⟨hp, by omega, by omega, fun j hj1 hj2 => absurd hj1 (by omega)⟩
    | false =>
      rw [hp] at h
      obtain ⟨h1, h2, h3, h4⟩ := ih h
      refine ⟨h1, h2, by omega, fun j hj1 hj2 => ?_⟩
      by_cases hje : j = lo + n
      · subst hje; simpa using hp
      · exact h4 j hj1 (by omega)

theorem find?_reverse_range'_none {lo n : Nat} {p : Nat → Bool}
    (h : ((List.range' lo n).reverse).find? p = none) :
    ∀ j, lo ≤ j → j < lo + n → p j = false := by
  intro j h1 h2
  have := List.find?_eq_none.mp h j (by
    rw [List.mem_reverse]
    exact mem_range'_iff.mpr ⟨h1, h2⟩)
  simpa using this

theorem all_zip_beq_iff {β : Type} [DecidableEq β] (l1 l2 : List β) :
    ((l1.zip l2).all fun q => q.1 == q.2) = true ↔
      ∀ j, j < l1.length → j < l2.length → l1[j]? = l2[j]? := by
  induction l1 generalizing l2 with
  | nil => simp
  | cons a t1 ih =>
    cases l2 with
    | nil => simp
    | cons b t2 =>
      simp only [List.zip_cons_cons, List.all_cons, Bool.and_eq_true, beq_iff_eq, ih]
      constructor
      · rintro ⟨hab, hrest⟩ j hj1 hj2
        cases j with
        | zero => simpa using hab
        | succ j =>
          simp only [List.length_cons] at hj1 hj2
          simpa using hrest j (by omega) (by omega)
      · intro hj
        constructor
        · have := hj 0 (by simp) (by simp)
          simpa using this
        · intro j hj1 hj2
          have := hj (j + 1) (by simp only [List.length_cons]; omega)
            (by simp only [List.length_cons]; omega)
          simpa using this

theorem window_getElem? {β : Type} (l : List β) (a b j : Nat) :
    ((l.drop a).take b)[j]? = if j < b then l[a + j]? else none := by
  rw [List.getElem?_take]
  by_cases h : j < b
  · rw [if_pos h, if_pos h, List.getElem?_drop]
  · rw [if_neg h, if_neg h]

/-! ## The data-model invariant

The spec's data-model section: in a non-empty state
`offset ≤ min ≤ max < offset + capacity`, the boundary slots are present,
`len` counts the present slots, and every present key lies in `[min, max]`;
the canonical empty state has zeroed bookkeeping. -/

def USet.Inv (s : USet) : Prop :=
  s.len = countTrue s.vec ∧
  (s.len = 0 → s.offset = 0 ∧ s.min = 0 ∧ s.max = 0) ∧
  (s.len ≠ 0 →
    s.offset ≤ s.min ∧ s.min ≤ s.max ∧ s.max < s.offset + s.vec.length ∧
    s.vec.getD (s.min - s.offset) false = true ∧
    s.vec.getD (s.max - s.offset) false = true ∧
    ∀ i, i < s.vec.length → s.vec.getD i false = true →
      s.min ≤ i + s.offset ∧ i + s.offset ≤ s.max)

instance (s : USet) : Decidable s.Inv := by
  unfold USet.Inv
  infer_instance

def UMap.MInv {α : Type} (m : UMap α) : Prop :=
  m.len = countSome m.vec ∧
  (m.len = 0 → m.offset = 0 ∧ m.min = 0 ∧ m.max = 0) ∧
  (m.len ≠ 0 →
    m.offset ≤ m.min ∧ m.min ≤ m.max ∧ m.max < m.offset + m.vec.length ∧
    (m.vec.getD (m.min - m.offset) none).isSome = true ∧
    (m.vec.getD (m.max - m.offset) none).isSome = true ∧
    ∀ i, i < m.vec.length → (m.vec.getD i none).isSome = true →
      m.min ≤ i + m.offset ∧ i + m.offset ≤ m.max)

instance {α : Type} [DecidableEq α] (m : UMap α) : Decidable m.MInv := by
  unfold UMap.MInv
  infer_instance

theorem getD_true_lt_length {l : List Bool} {i : Nat} (h : l.getD i false = true) :
    i < l.length := by
  by_contra hc
  rw [List.getD_eq_getElem?_getD, List.getElem?_len_le (by omega)] at h
  simp at h

theorem isSome_getD_lt_length {α : Type} {l : List (Option α)} {i : Nat}
    (h : (l.getD i none).isSome = true) : i < l.length := by
  by_contra hc
  rw [List.getD_eq_getElem?_getD, List.getElem?_len_le (by omega)] at h
  simp at h

theorem getD_eq_getElem {β : Type} {l : List β} {i : Nat} (d : β) (h : i < l.length) :
    l.getD i d = l[i] := by
  rw [List.getD_eq_getElem?_getD, List.getElem?_eq_getElem h]
  rfl

theorem getD_false_of_countTrue_zero {l : List Bool} (h : countTrue l = 0) (i : Nat) :
    l.getD i false = false := by
  by_contra hc
  have ht : l.getD i false = true := by
    cases hx : l.getD i false
    · exact absurd hx hc
    · rfl
  have hlt := getD_true_lt_length ht
  rw [getD_eq_getElem false hlt] at ht
  have := List.countP_eq_zero.mp h l[i] (List.getElem_mem hlt)
  rw [ht] at this
  simp at this

theorem getD_none_of_countSome_zero {α : Type} {l : List (Option α)}
    (h : countSome l = 0) (i : Nat) : l.getD i none = none := by
  cases hx : l.getD i none with
  | none => rfl
  | some v =>
    have ht : (l.getD i none).isSome = true := by rw [hx]; rfl
    have hlt := isSome_getD_lt_length ht
    rw [getD_eq_getElem none hlt] at ht
    have := List.countP_eq_zero.mp h l[i] (List.getElem_mem hlt)
    rw [ht] at this
    simp at this

theorem countTrue_set_true {l : List Bool} {i : Nat} (hlt : i < l.length)
    (h : l.getD i false = false) : countTrue (l.set i true) = countTrue l + 1 := by
  have hx : l[i] = false := by rw [← getD_eq_getElem false hlt, h]
  unfold countTrue
  rw [List.countP_set _ _ _ _ hlt, hx]
  simp

theorem countTrue_set_false {l : List Bool} {i : Nat} (hlt : i < l.length)
    (h : l.getD i false = true) : countTrue (l.set i false) = countTrue l - 1 := by
  have hx : l[i] = true := by rw [← getD_eq_getElem false hlt, h]
  unfold countTrue
  rw [List.countP_set _ _ _ _ hlt, hx]
  simp

theorem countTrue_pos {l : List Bool} {i : Nat} (h : l.getD i false = true) :
    1 ≤ countTrue l := by
  have hlt := getD_true_lt_length h
  rw [getD_eq_getElem false hlt] at h
  unfold countTrue
  exact List.countP_pos.mpr ⟨l[i], List.getElem_mem hlt, h⟩

theorem getD_set_eq {β : Type} {l : List β} {i : Nat} (hlt : i < l.length) (a d : β) :
    (l.set i a).getD i d = a := by
  rw [List.getD_eq_getElem?_getD, List.getElem?_set_eq hlt]
  rfl

theorem getD_set_ne {β : Type} (l : List β) {i j : Nat} (hne : i ≠ j) (a d : β) :
    (l.set i a).getD j d = l.getD j d := by
  rw [List.getD_eq_getElem?_getD, List.getElem?_set_ne hne, ← List.getD_eq_getElem?_getD]

theorem getD_replicate_self {β : Type} (n i : Nat) (d : β) :
    (List.replicate n d).getD i d = d := by
  rw [List.getD_eq_getElem?_getD, List.getElem?_replicate]
  by_cases h : i < n <;> simp [h]

theorem contains_true_iff {s : USet} {id : Nat} :
    s.contains id = true ↔ s.min ≤ id ∧ id ≤ s.max ∧ s.vec.getD (id - s.offset) false = true := by
  unfold USet.contains
  simp [Bool.and_eq_true, decide_eq_true_iff, and_assoc]

theorem contains_false_of_lt {s : USet} {id : Nat} (h : id < s.min) : s.contains id = false := by
  unfold USet.contains
  simp [Nat.not_le.mpr h]

theorem contains_false_of_gt {s : USet} {id : Nat} (h : s.max < id) : s.contains id = false := by
  unfold USet.contains
  simp [Nat.not_le.mpr h]

theorem contains_false_of_empty {s : USet} (hInv : s.Inv) (h0 : s.len = 0) (id : Nat) :
    s.contains id = false := by
  unfold USet.contains
  rw [getD_false_of_countTrue_zero (by rw [← hInv.1, h0]) (id - s.offset)]
  simp

theorem getD_append {β : Type} (l1 l2 : List β) (j : Nat) (d : β) :
    (l1 ++ l2).getD j d = if j < l1.length then l1.getD j d else l2.getD (j - l1.length) d := by
  rw [List.getD_eq_getElem?_getD, List.getElem?_append]
  by_cases h : j < l1.length
  · rw [if_pos h, if_pos h, List.getD_eq_getElem?_getD]
  · rw [if_neg h, if_neg h, List.getD_eq_getElem?_getD]

theorem countTrue_append (l1 l2 : List Bool) :
    countTrue (l1 ++ l2) = countTrue l1 + countTrue l2 := List.countP_append _ _ _

theorem countTrue_replicate_false (n : Nat) : countTrue (List.replicate n false) = 0 := by
  unfold countTrue
  rw [List.countP_replicate]
  simp

theorem countP_range'_eq_middle (lo n a b : Nat) (p : Nat → Bool)
    (hab : lo ≤ a) (hba : a ≤ b + 1) (hbn : b < lo + n)
    (hlow : ∀ j, lo ≤ j → j < a → p j = false)
    (hhigh : ∀ j, b < j → j < lo + n → p j = false) :
    (List.range' lo n).countP p = (List.range' a (b + 1 - a)).countP p := by
  rw [countP_range'_split lo (a - lo) n p (by omega)]
  rw [show lo + (a - lo) = a by omega]
  rw [countP_range'_split a (b + 1 - a) (n - (a - lo)) p (by omega)]
  rw [show a + (b + 1 - a) = b + 1 by omega]
  have h1 : (List.range' lo (a - lo)).countP p = 0 := by
    rw [List.countP_eq_zero]
    intro x hx
    rw [mem_range'_iff] at hx
    simp [hlow x hx.1 (by omega)]
  have h2 : (List.range' (b + 1) (n - (a - lo) - (b + 1 - a))).countP p = 0 := by
    rw [List.countP_eq_zero]
    intro x hx
    rw [mem_range'_iff] at hx
    simp [hhigh x (by omega) (by omega)]
  omega

/-- Under the invariant, `len` equals the number of members of the
`[min, max]` window. -/
theorem len_eq_countP_window {s : USet} (hInv : s.Inv) (hne : s.len ≠ 0) :
    s.len = (List.range' s.min (s.max + 1 - s.min)).countP s.contains := by
  obtain ⟨hcount, -, hfull⟩ := hInv
  obtain ⟨h1, h2, h3, h4, h5, h6⟩ := hfull hne
  rw [hcount, countTrue_eq_countP_range]
  have hshift : (List.range' s.offset s.vec.length).countP (fun k => s.vec.getD (k - s.offset) false)
      = (List.range s.vec.length).countP (fun i => s.vec.getD i false) := by
    rw [countP_range'_shift]
    apply List.countP_congr
    intro x _
    simp only [Nat.add_sub_cancel_left]
  rw [← hshift]
  rw [countP_range'_eq_middle s.offset s.vec.length s.min s.max
    (fun k => s.vec.getD (k - s.offset) false) h1 (by omega) (by omega)
    (fun j hj1 hj2 => ?low) (fun j hj1 hj2 => ?high)]
  case low =>
    by_contra hc
    have ht : s.vec.getD (j - s.offset) false = true := by
      cases hx : s.vec.getD (j - s.offset) false
      · exact absurd hx hc
      · rfl
    have := (h6 _ (getD_true_lt_length ht) ht).1
    omega
  case high =>
    by_contra hc
    have ht : s.vec.getD (j - s.offset) false = true := by
      cases hx : s.vec.getD (j - s.offset) false
      · exact absurd hx hc
      · rfl
    have := (h6 _ (getD_true_lt_length ht) ht).2
    omega
  apply List.countP_congr
  intro k hk
  rw [mem_range'_iff] at hk
  constructor
  · intro hx
    rw [contains_true_iff]
    exact ⟨by omega, by omega, hx⟩
  · intro hx
    exact (contains_true_iff.mp hx).2.2

/-- Under the invariant, `len` equals the number of members below any bound
beyond `max`. -/
theorem len_eq_countP_below {s : USet} (hInv : s.Inv) (N : Nat) (hN : s.max < N) :
    s.len = (List.range N).countP s.contains := by
  by_cases hne : s.len = 0
  · rw [hne]
    rw [eq_comm, List.countP_eq_zero]
    intro x _
    simp [contains_false_of_empty hInv hne x]
  · rw [len_eq_countP_window hInv hne]
    have hmm := (hInv.2.2 hne).2.1
    rw [show (List.range N) = List.range' 0 N from (List.range_eq_range' N)]
    rw [countP_range'_eq_middle 0 N s.min s.max s.contains (by omega) (by omega) (by omega)
      (fun j hj1 hj2 => contains_false_of_lt hj2)
      (fun j hj1 hj2 => contains_false_of_gt hj1)]

theorem length_pushLowVec {s : USet} {id : Nat} :
    (s.pushLowVec id).length = s.max - id + 1 := by
  unfold USet.pushLowVec
  rw [length_foldl_set, List.length_set, List.length_replicate]

theorem pushLowVec_getD {s : USet} (hInv : s.Inv) {id : Nat} (hne : s.len ≠ 0)
    (hid : id < s.offset) (j : Nat) :
    (s.pushLowVec id).getD j false
      = if s.min ≤ j + id ∧ j + id ≤ s.max then s.contains (j + id) else decide (j = 0) := by
  obtain ⟨h1, h2, h3, h4, h5, h6⟩ := hInv.2.2 hne
  have hv0len : ((List.replicate (s.max - id + 1) false).set 0 true).length = s.max - id + 1 := by
    rw [List.length_set, List.length_replicate]
  unfold USet.pushLowVec
  rw [List.getD_eq_getElem?_getD]
  rw [foldl_set_getElem? s.contains id _ (List.nodup_range' _ _)
    (fun i hi => by rw [mem_range'_iff] at hi; omega) _
    (fun i hi => by rw [mem_range'_iff] at hi; omega) j]
  by_cases hj : s.min ≤ j + id ∧ j + id ≤ s.max
  · rw [if_pos (mem_range'_iff.mpr ⟨hj.1, by omega⟩), if_pos hj]
    rfl
  · rw [if_neg (fun hmem => hj (by rw [mem_range'_iff] at hmem; exact ⟨hmem.1, by omega⟩)),
      if_neg hj]
    rw [List.getElem?_set]
    by_cases hj0 : j = 0
    · subst hj0
      rw [if_pos rfl, if_pos (by rw [List.length_replicate]; omega)]
      simp
    · rw [if_neg (by omega), List.getElem?_replicate]
      by_cases hjlt : j < s.max - id + 1
      · rw [if_pos hjlt]
        simp [hj0]
      · rw [if_neg hjlt]
        simp [hj0]

/-- `USet::push` preserves the data-model invariant. -/
theorem push_Inv {s : USet} (hInv : s.Inv) (id : Nat) : (s.push id).Inv := by
  rw [USet.push]
  by_cases h1 : s.vec.length = 0
  · rw [if_pos h1]
    have hlen0 : s.len = 0 := by
      rw [hInv.1]
      rw [List.length_eq_zero.mp h1]
      rfl
    have hc : countTrue ((List.replicate 8 false).set 0 true) = 1 := by
      rw [countTrue_set_true (by rw [List.length_replicate]; omega)
        (getD_replicate_self 8 0 false), countTrue_replicate_false]
    have hL : ((List.replicate 8 false).set 0 true).length = 8 := by
      rw [List.length_set, List.length_replicate]
    unfold USet.Inv
    dsimp only
    refine ⟨by rw [hc, hlen0], by omega, fun _ => ?_⟩
    refine ⟨Nat.le_refl _, Nat.le_refl _, by rw [hL]; omega, ?_, ?_, ?_⟩
    · rw [Nat.sub_self]
      exact getD_set_eq (by rw [List.length_replicate]; omega) true false
    · rw [Nat.sub_self]
      exact getD_set_eq (by rw [List.length_replicate]; omega) true false
    · intro i hi hgi
      rcases Nat.eq_zero_or_pos i with h0 | h0
      · omega
      · rw [getD_set_ne _ (by omega), getD_replicate_self] at hgi
        simp at hgi
  · rw [if_neg h1]
    by_cases h2 : s.len = 0
    · rw [if_pos h2]
      have hall : countTrue s.vec = 0 := by rw [← hInv.1, h2]
      have hc : countTrue (s.vec.set 0 true) = 1 := by
        rw [countTrue_set_true (by omega) (getD_false_of_countTrue_zero hall 0), hall]
      unfold USet.Inv
      dsimp only
      refine ⟨by rw [hc], by omega, fun _ => ?_⟩
      refine ⟨Nat.le_refl _, Nat.le_refl _, by rw [List.length_set]; omega, ?_, ?_, ?_⟩
      · rw [Nat.sub_self]
        exact getD_set_eq (by omega) true false
      · rw [Nat.sub_self]
        exact getD_set_eq (by omega) true false
      · intro i hi hgi
        rcases Nat.eq_zero_or_pos i with h0 | h0
        · omega
        · rw [getD_set_ne _ (by omega), getD_false_of_countTrue_zero hall] at hgi
          simp at hgi
    · rw [if_neg h2]
      obtain ⟨i1, i2, i3, i4, i5, i6⟩ := hInv.2.2 h2
      by_cases h3 : id < s.offset
      · rw [if_pos h3]
        have hgd := pushLowVec_getD hInv h2 h3
        have hLlen : (s.pushLowVec id).length = s.max - id + 1 := length_pushLowVec
        have hcnt : countTrue (s.pushLowVec id) = s.len + 1 := by
          rw [countTrue_eq_countP_range, hLlen]
          have hcg : (List.range (s.max - id + 1)).countP (fun j => (s.pushLowVec id).getD j false)
              = (List.range' 0 (s.max - id + 1)).countP
                (fun j => if s.min ≤ j + id ∧ j + id ≤ s.max then s.contains (j + id)
                  else decide (j = 0)) := by
            rw [List.range_eq_range']
            apply List.countP_congr
            intro x _
            rw [hgd x]
          rw [hcg]
          rw [countP_range'_split 0 1 (s.max - id + 1) _ (by omega)]
          have hfirst : (List.range' 0 1).countP
              (fun j => if s.min ≤ j + id ∧ j + id ≤ s.max then s.contains (j + id)
                else decide (j = 0)) = 1 := by
            have he1 : List.range' 0 1 = [0] := rfl
            rw [he1, List.countP_cons]
            rw [if_neg (show ¬(s.min ≤ 0 + id ∧ 0 + id ≤ s.max) by omega)]
            simp
          rw [hfirst]
          rw [countP_range'_eq_middle (0 + 1) (s.max - id + 1 - 1) (s.min - id) (s.max - id) _
            (by omega) (by omega) (by omega)
            (fun j hj1 hj2 => by
              rw [if_neg (show ¬(s.min ≤ j + id ∧ j + id ≤ s.max) by omega)]
              simp
              omega)
            (fun j hj1 hj2 => by
              rw [if_neg (show ¬(s.min ≤ j + id ∧ j + id ≤ s.max) by omega)]
              simp
              omega)]
          have hmid : (List.range' (s.min - id) (s.max - id + 1 - (s.min - id))).countP
              (fun j => if s.min ≤ j + id ∧ j + id ≤ s.max then s.contains (j + id)
                else decide (j = 0))
              = (List.range' s.min (s.max + 1 - s.min)).countP s.contains := by
            rw [countP_range'_shift, countP_range'_shift]
            rw [show s.max - id + 1 - (s.min - id) = s.max + 1 - s.min by omega]
            apply List.countP_congr
            intro x hx
            rw [List.mem_range] at hx
            rw [if_pos (show s.min ≤ s.min - id + x + id ∧ s.min - id + x + id ≤ s.max
              by omega)]
            rw [show s.min - id + x + id = s.min + x by omega]
          rw [hmid, ← len_eq_countP_window hInv h2]
          omega
        unfold USet.Inv
        dsimp only
        refine ⟨by rw [hcnt], by omega, fun _ => ?_⟩
        refine ⟨Nat.le_refl _, by omega, by rw [hLlen]; omega, ?_, ?_, ?_⟩
        · rw [Nat.sub_self, hgd 0, if_neg (by omega)]
          simp
        · rw [hgd (s.max - id), if_pos (by omega)]
          rw [show s.max - id + id = s.max by omega]
          rw [contains_true_iff]
          exact ⟨i2, Nat.le_refl _, i5⟩
        · intro i hi hgi
          rw [hgd i] at hgi
          by_cases hw : s.min ≤ i + id ∧ i + id ≤ s.max
          · rw [if_pos hw] at hgi
            have := (contains_true_iff.mp hgi).2.1
            omega
          · rw [if_neg hw] at hgi
            simp at hgi
            omega
      · rw [if_neg h3]
        by_cases h4 : s.offset + s.vec.length ≤ id
        · rw [if_pos h4]
          have hlen2 : ((s.vec ++ List.replicate (id + 1 - s.offset - s.vec.length) false)).length
              = id + 1 - s.offset := by
            rw [List.length_append, List.length_replicate]
            omega
          have hold : (s.vec ++ List.replicate (id + 1 - s.offset - s.vec.length) false).getD
              (id - s.offset) false = false := by
            rw [getD_append, if_neg (by omega), getD_replicate_self]
          have hcnt : countTrue ((s.vec ++ List.replicate (id + 1 - s.offset - s.vec.length)
              false).set (id - s.offset) true) = s.len + 1 := by
            rw [countTrue_set_true (by omega) hold, countTrue_append,
              countTrue_replicate_false, ← hInv.1]
          have hLs : (((s.vec ++ List.replicate (id + 1 - s.offset - s.vec.length) false).set
              (id - s.offset) true)).length = id + 1 - s.offset := by
            rw [List.length_set, hlen2]
          unfold USet.Inv
          dsimp only
          refine ⟨by rw [hcnt], by omega, fun _ => ?_⟩
          refine ⟨i1, by omega, by rw [hLs]; omega, ?_, ?_, ?_⟩
          · rw [getD_set_ne _ (by omega), getD_append, if_pos (by omega)]
            exact i4
          · rw [getD_set_eq (by omega) true false]
          · intro i hi hgi
            by_cases hie : i = id - s.offset
            · omega
            · rw [getD_set_ne _ (by omega), getD_append] at hgi
              by_cases hic : i < s.vec.length
              · rw [if_pos hic] at hgi
                have := i6 i hic hgi
                omega
              · rw [if_neg hic, getD_replicate_self] at hgi
                simp at hgi
        · rw [if_neg h4]
          by_cases h5 : s.vec.getD (id - s.offset) false = false
          · rw [if_pos h5]
            have hidmin : id ≠ s.min := by
              intro he
              rw [he] at h5
              rw [h5] at i4
              simp at i4
            have hidmax : id ≠ s.max := by
              intro he
              rw [he] at h5
              rw [h5] at i5
              simp at i5
            have hcnt : countTrue (s.vec.set (id - s.offset) true) = s.len + 1 := by
              rw [countTrue_set_true (by omega) h5, ← hInv.1]
            have hLs : (s.vec.set (id - s.offset) true).length = s.vec.length :=
              List.length_set _ _ _
            unfold USet.Inv
            dsimp only
            refine ⟨by rw [hcnt], by omega, fun _ => ?_⟩
            by_cases hc1 : id < s.min
            · simp only [if_pos hc1]
              refine ⟨by omega, by omega, by rw [hLs]; omega, ?_, ?_, ?_⟩
              · rw [getD_set_eq (by omega) true false]
              · rw [getD_set_ne _ (by omega)]
                exact i5
              · intro i hi hgi
                by_cases hie : i = id - s.offset
                · subst hie
                  omega
                · rw [getD_set_ne _ (by omega)] at hgi
                  have := i6 i (by omega) hgi
                  omega
            · simp only [if_neg hc1]
              by_cases hc2 : s.max < id
              · simp only [if_pos hc2]
                refine ⟨by omega, by omega, by rw [hLs]; omega, ?_, ?_, ?_⟩
                · rw [getD_set_ne _ (by omega)]
                  exact i4
                · rw [getD_set_eq (by omega) true false]
                · intro i hi hgi
                  by_cases hie : i = id - s.offset
                  · subst hie
                    omega
                  · rw [getD_set_ne _ (by omega)] at hgi
                    have := i6 i (by omega) hgi
                    omega
              · simp only [if_neg hc2]
                refine ⟨by omega, by omega, by rw [hLs]; omega, ?_, ?_, ?_⟩
                · rw [getD_set_ne _ (by omega)]
                  exact i4
                · rw [getD_set_ne _ (by omega)]
                  exact i5
                · intro i hi hgi
                  by_cases hie : i = id - s.offset
                  · subst hie
                    omega
                  · rw [getD_set_ne _ (by omega)] at hgi
                    have := i6 i (by omega) hgi
                    omega
          · rw [if_neg h5]
            exact hInv

theorem min_lt_max_of_two {s : USet} (hInv : s.Inv) (h2 : 2 ≤ s.len) : s.min < s.max := by
  by_contra hc
  have hmm : s.min = s.max := by
    have := (hInv.2.2 (by omega)).2.1
    omega
  have hw := len_eq_countP_window hInv (by omega)
  rw [show s.max + 1 - s.min = 1 by omega] at hw
  have hle := List.countP_le_length (l := List.range' s.min 1) s.contains
  rw [List.length_range'] at hle
  omega

/-- `USet::remove` preserves the data-model invariant. -/
theorem remove_Inv {s : USet} (hInv : s.Inv) (id : Nat) : (s.remove id).Inv := by
  rw [USet.remove]
  by_cases g1 : id < s.min ∨ s.max < id ∨ s.contains id = false
  · rw [if_pos g1]
    exact hInv
  · rw [if_neg g1]
    have hmin : s.min ≤ id := by
      by_contra h
      exact g1 (Or.inl (by omega))
    have hmax : id ≤ s.max := by
      by_contra h
      exact g1 (Or.inr (Or.inl (by omega)))
    have hcont : s.contains id = true := by
      cases hx : s.contains id
      · exact absurd (Or.inr (Or.inr hx)) g1
      · rfl
    have hslot : s.vec.getD (id - s.offset) false = true := (contains_true_iff.mp hcont).2.2
    have hidx : id - s.offset < s.vec.length := getD_true_lt_length hslot
    have hlen1 : 1 ≤ s.len := by
      rw [hInv.1]
      exact countTrue_pos hslot
    obtain ⟨i1, i2, i3, i4, i5, i6⟩ := hInv.2.2 (by omega)
    have hcnt : countTrue (s.vec.set (id - s.offset) false) = s.len - 1 := by
      rw [countTrue_set_false hidx hslot, ← hInv.1]
    by_cases g2 : s.len = 1
    · rw [if_pos g2]
      unfold USet.Inv
      dsimp only
      exact ⟨by omega, fun _ => ⟨rfl, rfl, rfl⟩, fun h => absurd rfl h⟩
    · rw [if_neg g2]
      have hmm : s.min < s.max := min_lt_max_of_two hInv (by omega)
      by_cases g3 : s.min < id ∧ id < s.max
      · rw [if_pos g3]
        unfold USet.Inv
        dsimp only
        refine ⟨by omega, by omega, fun _ => ?_⟩
        refine ⟨i1, i2, by rw [List.length_set]; omega, ?_, ?_, ?_⟩
        · rw [getD_set_ne _ (by omega)]
          exact i4
        · rw [getD_set_ne _ (by omega)]
          exact i5
        · intro i hi hgi
          by_cases hie : i = id - s.offset
          · subst hie
            rw [getD_set_eq (by omega) false false] at hgi
            simp at hgi
          · rw [getD_set_ne _ (by omega)] at hgi
            exact i6 i (by rw [List.length_set] at hi; exact hi) hgi
      · rw [if_neg g3]
        by_cases g4 : id = s.min
        · rw [if_pos g4]
          unfold USet.Inv
          dsimp only
          have hvmax : (s.vec.set (id - s.offset) false).getD (s.max - s.offset) false = true := by
            rw [getD_set_ne _ (by omega)]
            exact i5
          refine ⟨by omega, by omega, fun _ => ?_⟩
          cases hfind : (List.range' s.min (s.max - s.min)).find?
              (fun i => (s.vec.set (id - s.offset) false).getD (i - s.offset) false) with
          | some m =>
            obtain ⟨pm, hm1, hm2, hfirst⟩ := find?_range'_some hfind
            simp only [Option.getD_some]
            refine ⟨by omega, by omega, by rw [List.length_set]; omega, ?_, ?_, ?_⟩
            · exact pm
            · exact hvmax
            · intro i hi hgi
              rw [List.length_set] at hi
              by_cases hie : i = id - s.offset
              · subst hie
                rw [getD_set_eq (by omega) false false] at hgi
                simp at hgi
              · rw [getD_set_ne _ (by omega)] at hgi
                have hold := i6 i hi hgi
                constructor
                · by_contra hlt
                  have hpj := hfirst (i + s.offset) (by omega) (by omega)
                  rw [show i + s.offset - s.offset = i by omega] at hpj
                  rw [getD_set_ne _ (by omega)] at hpj
                  rw [hgi] at hpj
                  simp at hpj
                · omega
          | none =>
            have hall := find?_range'_none hfind
            simp only [Option.getD_none]
            refine ⟨by omega, Nat.le_refl _, by rw [List.length_set]; omega, ?_, ?_, ?_⟩
            · exact hvmax
            · exact hvmax
            · intro i hi hgi
              rw [List.length_set] at hi
              by_cases hie : i = id - s.offset
              · subst hie
                rw [getD_set_eq (by omega) false false] at hgi
                simp at hgi
              · rw [getD_set_ne _ (by omega)] at hgi
                have hold := i6 i hi hgi
                constructor
                · by_contra hlt
                  have hpj := hall (i + s.offset) (by omega) (by omega)
                  rw [show i + s.offset - s.offset = i by omega] at hpj
                  rw [getD_set_ne _ (by omega)] at hpj
                  rw [hgi] at hpj
                  simp at hpj
                · omega
        · rw [if_neg g4]
          have g5 : id = s.max := by omega
          rw [if_pos g5]
          unfold USet.Inv
          dsimp only
          have hvmin : (s.vec.set (id - s.offset) false).getD (s.min - s.offset) false = true := by
            rw [getD_set_ne _ (by omega)]
            exact i4
          refine ⟨by omega, by omega, fun _ => ?_⟩
          cases hfind : ((List.range' s.min (s.max - s.min)).reverse).find?
              (fun i => (s.vec.set (id - s.offset) false).getD (i - s.offset) false) with
          | some m =>
            obtain ⟨pm, hm1, hm2, hlast⟩ := find?_reverse_range'_some hfind
            simp only [Option.getD_some]
            refine ⟨by omega, by omega, by rw [List.length_set]; omega, ?_, ?_, ?_⟩
            · exact hvmin
            · exact pm
            · intro i hi hgi
              rw [List.length_set] at hi
              by_cases hie : i = id - s.offset
              · subst hie
                rw [getD_set_eq (by omega) false false] at hgi
                simp at hgi
              · rw [getD_set_ne _ (by omega)] at hgi
                have hold := i6 i hi hgi
                constructor
                · omega
                · by_contra hlt
                  have hne2 : i + s.offset ≠ s.max := by omega
                  have hpj := hlast (i + s.offset) (by omega) (by omega)
                  rw [show i + s.offset - s.offset = i by omega] at hpj
                  rw [getD_set_ne _ (by omega)] at hpj
                  rw [hgi] at hpj
                  simp at hpj
          | none =>
            exfalso
            have hall := find?_reverse_range'_none hfind
            have hpmin := hall s.min (Nat.le_refl _) (by omega)
            rw [hpmin] at hvmin
            simp at hvmin

/-- Insertion postcondition for a key not in the set. -/
theorem push_contains_len {s : USet} (hInv : s.Inv) {id : Nat} (h : s.contains id = false) :
    (s.push id).contains id = true ∧ (s.push id).len = s.len + 1 := by
  rw [USet.push]
  by_cases h1 : s.vec.length = 0
  · rw [if_pos h1]
    unfold USet.contains
    dsimp only
    rw [Nat.sub_self]
    rw [getD_set_eq (by rw [List.length_replicate]; omega) true false]
    simp
  · rw [if_neg h1]
    by_cases h2 : s.len = 0
    · rw [if_pos h2]
      unfold USet.contains
      dsimp only
      rw [Nat.sub_self, getD_set_eq (by omega) true false]
      simp [h2]
    · rw [if_neg h2]
      obtain ⟨i1, i2, i3, i4, i5, i6⟩ := hInv.2.2 h2
      by_cases h3 : id < s.offset
      · rw [if_pos h3]
        unfold USet.contains
        dsimp only
        rw [Nat.sub_self, pushLowVec_getD hInv h2 h3 0, if_neg (by omega)]
        refine ⟨?_, rfl⟩
        simp only [Bool.and_eq_true, decide_eq_true_eq]
        exact ⟨⟨Nat.le_refl _, by omega⟩, by simp⟩
      · rw [if_neg h3]
        by_cases h4 : s.offset + s.vec.length ≤ id
        · rw [if_pos h4]
          unfold USet.contains
          dsimp only
          rw [getD_set_eq (by rw [List.length_append, List.length_replicate]; omega) true false]
          refine ⟨?_, rfl⟩
          simp only [Bool.and_eq_true, decide_eq_true_eq]
          exact ⟨⟨by omega, Nat.le_refl _⟩, trivial⟩
        · rw [if_neg h4]
          by_cases h5 : s.vec.getD (id - s.offset) false = false
          · rw [if_pos h5]
            unfold USet.contains
            dsimp only
            rw [getD_set_eq (by omega) true false]
            constructor
            · by_cases hc1 : id < s.min
              · simp only [if_pos hc1]
                simp
                omega
              · simp only [if_neg hc1]
                by_cases hc2 : s.max < id
                · simp only [if_pos hc2]
                  simp
                  omega
                · simp only [if_neg hc2]
                  simp
                  omega
            · rfl
          · rw [if_neg h5]
            exfalso
            have hsl : s.vec.getD (id - s.offset) false = true := by
              cases hx : s.vec.getD (id - s.offset) false
              · exact absurd hx h5
              · rfl
            have hb := i6 (id - s.offset) (getD_true_lt_length hsl) hsl
            have : s.contains id = true := by
              rw [contains_true_iff]
              refine ⟨by omega, by omega, hsl⟩
            rw [this] at h
            simp at h

/-- Removal postcondition for a key in the set. -/
theorem remove_contains_len {s : USet} (hInv : s.Inv) {id : Nat} (h : s.contains id = true) :
    (s.remove id).contains id = false ∧ (s.remove id).len + 1 = s.len := by
  have hslot : s.vec.getD (id - s.offset) false = true := (contains_true_iff.mp h).2.2
  have hidx : id - s.offset < s.vec.length := getD_true_lt_length hslot
  have hb1 : s.min ≤ id := (contains_true_iff.mp h).1
  have hb2 : id ≤ s.max := (contains_true_iff.mp h).2.1
  have hlen1 : 1 ≤ s.len := by
    rw [hInv.1]
    exact countTrue_pos hslot
  obtain ⟨i1, i2, i3, i4, i5, i6⟩ := hInv.2.2 (by omega)
  rw [USet.remove]
  rw [if_neg (by
    intro hor
    rcases hor with ha | hb | hc
    · omega
    · omega
    · rw [h] at hc; simp at hc)]
  by_cases g2 : s.len = 1
  · rw [if_pos g2]
    unfold USet.contains
    dsimp only
    constructor
    · by_cases hid0 : id = 0
      · subst hid0
        have hoff0 : s.offset = 0 := by omega
        rw [hoff0] at hidx hslot ⊢
        rw [getD_set_eq (by omega) false false]
        simp
      · simp [hid0]
    · omega
  · rw [if_neg g2]
    by_cases g3 : s.min < id ∧ id < s.max
    · rw [if_pos g3]
      unfold USet.contains
      dsimp only
      rw [getD_set_eq (by omega) false false]
      simp
      omega
    · rw [if_neg g3]
      by_cases g4 : id = s.min
      · rw [if_pos g4]
        unfold USet.contains
        dsimp only
        rw [getD_set_eq (by omega) false false]
        simp
        omega
      · rw [if_neg g4]
        rw [if_pos (show id = s.max by omega)]
        unfold USet.contains
        dsimp only
        rw [getD_set_eq (by omega) false false]
        simp
        omega

theorem removeChecked_Inv {s : USet} (hInv : s.Inv) (id : Nat) :
    ∀ t, s.removeChecked id = some t → t.Inv := by
  intro t ht
  rw [USet.removeChecked] at ht
  by_cases h : id < s.min ∨ s.max < id
  · rw [if_pos h] at ht
    cases ht
    exact hInv
  · rw [if_neg h] at ht
    cases hg : s.vec.get? (id - s.offset) with
    | none => rw [hg] at ht; cases ht
    | some b =>
      rw [hg] at ht
      simp only [Option.map_some'] at ht
      cases ht
      exact remove_Inv hInv id

/-- The atomic mutations of the spec's implicit state machine: the only two
public single-key mutators of `USet`. -/
inductive SetOp where
  | push : Nat → SetOp
  | remove : Nat → SetOp
deriving Repr, DecidableEq

/-- Apply one operation; `USet::remove` can panic (through its `contains`
guard), modelled by `none`. -/
def applyOp (s : USet) : SetOp → Option USet
  | SetOp.push k => some (s.push k)
  | SetOp.remove k => s.removeChecked k

/-- Run a sequence of operations from the empty set (`USet::new()`). -/
def applyOps (ops : List SetOp) : Option USet :=
  ops.foldlM applyOp USet.empty

theorem foldlM_applyOp_Inv (ops : List SetOp) (s : USet) (hInv : s.Inv) :
    ∀ t, ops.foldlM applyOp s = some t → t.Inv := by
  induction ops generalizing s with
  | nil =>
    intro t ht
    cases ht
    exact hInv
  | cons op rest ih =>
    intro t ht
    rw [List.foldlM_cons] at ht
    cases op with
    | push k =>
      simp only [applyOp, Option.bind_eq_bind, Option.some_bind] at ht
      exact ih (s.push k) (push_Inv hInv k) t ht
    | remove k =>
      cases hg : s.removeChecked k with
      | none =>
        simp only [applyOp, hg, Option.bind_eq_bind, Option.none_bind] at ht
        cases ht
      | some s1 =>
        simp only [applyOp, hg, Option.bind_eq_bind, Option.some_bind] at ht
        exact ih s1 (removeChecked_Inv hInv k s1 hg) t ht

theorem empty_Inv : USet.empty.Inv := by decide

theorem applyOps_Inv {ops : List SetOp} {t : USet} (h : applyOps ops = some t) : t.Inv :=
  foldlM_applyOp_Inv ops USet.empty empty_Inv t h

/-- Under the invariant, `min()`/`max()` return exactly the smallest/largest
member, and `None` exactly on sets with no members. -/
theorem minmax_spec {s : USet} (hInv : s.Inv) :
    (s.minVal = none ↔ ∀ j, s.contains j = false) ∧
    (∀ m, s.minVal = some m → s.contains m = true ∧ ∀ j, s.contains j = true → m ≤ j) ∧
    (s.maxVal = none ↔ ∀ j, s.contains j = false) ∧
    (∀ m, s.maxVal = some m → s.contains m = true ∧ ∀ j, s.contains j = true → j ≤ m) := by
  by_cases h0 : s.len = 0
  · have hall : ∀ j, s.contains j = false := contains_false_of_empty hInv h0
    have hmn : s.minVal = none := by unfold USet.minVal; rw [if_pos h0]
    have hmx : s.maxVal = none := by unfold USet.maxVal; rw [if_pos h0]
    rw [hmn, hmx]
    refine ⟨⟨fun _ => hall, fun _ => rfl⟩, ?_, ⟨fun _ => hall, fun _ => rfl⟩, ?_⟩
    · intro m hm
      cases hm
    · intro m hm
      cases hm
  · obtain ⟨i1, i2, i3, i4, i5, i6⟩ := hInv.2.2 h0
    have hcmin : s.contains s.min = true := by
      rw [contains_true_iff]
      exact ⟨Nat.le_refl _, i2, i4⟩
    have hcmax : s.contains s.max = true := by
      rw [contains_true_iff]
      exact ⟨i2, Nat.le_refl _, i5⟩
    have hmn : s.minVal = some s.min := by unfold USet.minVal; rw [if_neg h0]
    have hmx : s.maxVal = some s.max := by unfold USet.maxVal; rw [if_neg h0]
    rw [hmn, hmx]
    refine ⟨⟨(fun hx => by cases hx), (fun hx => by rw [hx s.min] at hcmin; cases hcmin)⟩,
      ?_, ⟨(fun hx => by cases hx), (fun hx => by rw [hx s.max] at hcmax; cases hcmax)⟩, ?_⟩
    · intro m hm
      cases hm
      exact ⟨hcmin, fun j hj => (contains_true_iff.mp hj).1⟩
    · intro m hm
      cases hm
      exact ⟨hcmax, fun j hj => (contains_true_iff.mp hj).2.1⟩

/-! ## Claim theorems -/

/-- C2: for any set `S` satisfying the data-model invariant and key `k`:
if `k ∉ S`, after `S.push(k)` the set contains `k` and `len` grows by
exactly 1; if `k ∈ S`, after `S.remove(k)` the set does not contain `k` and
`len` shrinks by exactly 1. -/
theorem uset_push_remove_postconditions (S : USet) (k : Nat) (hInv : S.Inv) :
    (S.contains k = false → (S.push k).contains k = true ∧ (S.push k).len = S.len + 1) ∧
    (S.contains k = true → (S.remove k).contains k = false ∧ (S.remove k).len + 1 = S.len) :=
  ⟨fun h => push_contains_len hInv h, fun h => remove_contains_len hInv h⟩

theorem uset_push_remove_postconditions_witness :
    ((USet.empty.push 2).push 5).Inv ∧
    ((((USet.empty.push 2).push 5).contains 5 = false →
        ((((USet.empty.push 2).push 5).push 5).contains 5 = true ∧
          (((USet.empty.push 2).push 5).push 5).len = ((USet.empty.push 2).push 5).len + 1)) ∧
      (((USet.empty.push 2).push 5).contains 5 = true →
        ((((USet.empty.push 2).push 5).remove 5).contains 5 = false ∧
          (((USet.empty.push 2).push 5).remove 5).len + 1 = ((USet.empty.push 2).push 5).len))) :=
  ⟨by decide, uset_push_remove_postconditions ((USet.empty.push 2).push 5) 5 (by decide)⟩

/-- C3: after any sequence of `push`/`remove` operations from the empty set
that completes without panicking, `min()` returns the smallest present key,
`max()` the largest, and both return `None` exactly when no key is present. -/
theorem uset_minmax_after_ops (ops : List SetOp) (S : USet) (h : applyOps ops = some S) :
    (S.minVal = none ↔ ∀ j, S.contains j = false) ∧
    (∀ m, S.minVal = some m → S.contains m = true ∧ ∀ j, S.contains j = true → m ≤ j) ∧
    (S.maxVal = none ↔ ∀ j, S.contains j = false) ∧
    (∀ m, S.maxVal = some m → S.contains m = true ∧ ∀ j, S.contains j = true → j ≤ m) :=
  minmax_spec (applyOps_Inv h)

/-- The concrete state reached by `[push 3, push 5, remove 3]` from the
empty set, used to witness `uset_minmax_after_ops`. -/
def opsResult : USet :=
  { vec := [false, false, true, false, false, false, false, false],
    len := 1, offset := 3, min := 5, max := 5 }

theorem uset_minmax_after_ops_witness :
    (applyOps [SetOp.push 3, SetOp.push 5, SetOp.remove 3] = some opsResult) ∧
    (opsResult.minVal = none ↔ ∀ j, opsResult.contains j = false) ∧
    (∀ m, opsResult.minVal = some m →
      opsResult.contains m = true ∧ ∀ j, opsResult.contains j = true → m ≤ j) ∧
    (opsResult.maxVal = none ↔ ∀ j, opsResult.contains j = false) ∧
    (∀ m, opsResult.maxVal = some m →
      opsResult.contains m = true ∧ ∀ j, opsResult.contains j = true → j ≤ m) :=
  ⟨by decide, uset_minmax_after_ops [SetOp.push 3, SetOp.push 5, SetOp.remove 3]
    opsResult (by decide)⟩

/-- C4: `UMap::keys()` panics (models as `none`) on an empty map whose buffer
capacity remains allocated — `USet::from_fields` `unwrap`s the first/last
present position of an all-absent buffer.  `with_capacity(1)` and a map whose
single entry was removed are such maps. -/
theorem umap_keys_panics_on_allocated_empty :
    (UMap.with_capacity Nat 1).len = 0 ∧
    UMap.keysChecked (UMap.with_capacity Nat 1) = none ∧
    ((((UMap.new Nat).put 5 1).remove 5).1).len = 0 ∧
    UMap.keysChecked ((((UMap.new Nat).put 5 1).remove 5).1) = none := by decide

/-- C5: `USet::from_range(3..6)` stores `max = 6` (the range's `end`), so
`max()` reports `Some 6` although the largest member is `5`, the slot at
`max - offset` is absent, and the non-empty-state invariant fails. -/
theorem uset_from_range_max_off_by_one :
    (USet.from_range 3 6).len = 3 ∧
    (USet.from_range 3 6).contains 5 = true ∧
    (USet.from_range 3 6).contains 6 = false ∧
    (USet.from_range 3 6).maxVal = some 6 ∧
    (USet.from_range 3 6).vec.getD ((USet.from_range 3 6).max - (USet.from_range 3 6).offset)
      false = false ∧
    ¬ (USet.from_range 3 6).Inv := by decide

/-- C6: `USet::push_all`'s reallocation path drops previously present keys
when `offset < min` (after the old minimum was removed): starting from
`{0, 2}`, removing `0` (so `offset = 0`, `min = 2`) and bulk-inserting `[5]`
loses the key `2` yet still reports `len = 2`. -/
theorem uset_push_all_loses_keys :
    ((((USet.empty.push 0).push 2).remove 0)).contains 2 = true ∧
    ((((USet.empty.push 0).push 2).remove 0).push_all [5]).contains 2 = false ∧
    ((((USet.empty.push 0).push 2).remove 0).push_all [5]).contains 5 = true ∧
    ((((USet.empty.push 0).push 2).remove 0).push_all [5]).len = 2 := by decide

/-- C9: on the zero-capacity empty set (`USet::new()`), `contains(0)` — and
hence the guard of `remove(0)` — evaluates `vec[0 - 0]` on a zero-length
buffer and panics (modelled by `none`) instead of reporting absence. -/
theorem uset_contains_remove_panic_on_new :
    USet.empty.len = 0 ∧ USet.empty.capacity = 0 ∧
    USet.containsChecked USet.empty 0 = none ∧
    USet.removeChecked USet.empty 0 = none := by decide

/-- C10: `UMap::push` inserts at `self.max + 1`; on a canonical empty map
(`len = 0`, `max = 0`) it stores the value under key 1 and returns 1, and no
`push` ever returns key 0. -/
theorem umap_push_empty_key_one {α : Type} (M : UMap α) (v : α)
    (h0 : M.len = 0) (hmax : M.max = 0) :
    (M.push v).2 = 1 ∧ ((M.push v).1).get 1 = some v ∧
    ∀ (N : UMap α) (w : α), (N.push w).2 ≠ 0 := by
  refine ⟨by rw [UMap.push, hmax], ?_, fun N w => by rw [UMap.push]; omega⟩
  show (M.put (M.max + 1) v).get 1 = some v
  rw [hmax]
  rw [UMap.put]
  by_cases h1 : M.vec.length = 0
  · rw [if_pos h1]
    unfold UMap.get
    dsimp only
    rw [if_pos ⟨Nat.le_refl 1, Nat.le_refl 1⟩, Nat.sub_self]
    exact getD_set_eq (by rw [List.length_replicate]; omega) (some v) none
  · rw [if_neg h1, if_pos h0]
    unfold UMap.get
    dsimp only
    rw [if_pos ⟨Nat.le_refl 1, Nat.le_refl 1⟩, Nat.sub_self]
    exact getD_set_eq (by omega) (some v) none

theorem umap_push_empty_key_one_witness :
    (UMap.new Nat).len = 0 ∧ (UMap.new Nat).max = 0 ∧
    (((UMap.new Nat).push 7).2 = 1 ∧ (((UMap.new Nat).push 7).1).get 1 = some 7 ∧
      ∀ (N : UMap Nat) (w : Nat), (N.push w).2 ≠ 0) :=
  ⟨rfl, rfl, umap_push_empty_key_one (UMap.new Nat) 7 rfl rfl⟩

theorem length_putLowVec {α : Type} {m : UMap α} {id : Nat} {value : α} :
    (m.putLowVec id value).length = m.max - id + 1 := by
  unfold UMap.putLowVec
  rw [length_foldl_set, List.length_set, List.length_replicate]

theorem putLowVec_getD {α : Type} {m : UMap α} (hInv : m.MInv) {id : Nat} {value : α}
    (hne : m.len ≠ 0) (hid : id < m.offset) (j : Nat) :
    (m.putLowVec id value).getD j none
      = if m.min ≤ j + id ∧ j + id ≤ m.max then m.get (j + id)
        else if j = 0 then some value else none := by
  obtain ⟨h1, h2, h3, h4, h5, h6⟩ := hInv.2.2 hne
  unfold UMap.putLowVec
  rw [List.getD_eq_getElem?_getD]
  rw [foldl_set_getElem? m.get id _ (List.nodup_range' _ _)
    (fun i hi => by rw [mem_range'_iff] at hi; omega) _
    (fun i hi => by
      rw [mem_range'_iff] at hi
      rw [List.length_set, List.length_replicate]
      omega) j]
  by_cases hj : m.min ≤ j + id ∧ j + id ≤ m.max
  · rw [if_pos (mem_range'_iff.mpr ⟨hj.1, by omega⟩), if_pos hj]
    rfl
  · rw [if_neg (fun hmem => hj (by rw [mem_range'_iff] at hmem; exact ⟨hmem.1, by omega⟩)),
      if_neg hj]
    rw [List.getElem?_set]
    by_cases hj0 : j = 0
    · subst hj0
      rw [if_pos rfl, if_pos (by rw [List.length_replicate]; omega)]
      simp
    · rw [if_neg (by omega), List.getElem?_replicate, if_neg hj0]
      by_cases hjlt : j < m.max - id + 1
      · rw [if_pos hjlt]
        rfl
      · rw [if_neg hjlt]
        rfl

theorem get_eq_some_iff {α : Type} {m : UMap α} {id : Nat} {w : α} :
    m.get id = some w ↔ m.min ≤ id ∧ id ≤ m.max ∧ m.vec.getD (id - m.offset) none = some w := by
  unfold UMap.get
  by_cases h : m.min ≤ id ∧ id ≤ m.max
  · rw [if_pos h]
    constructor
    · intro hx
      exact ⟨h.1, h.2, hx⟩
    · intro hx
      exact hx.2.2
  · rw [if_neg h]
    constructor
    · intro hx
      cases hx
    · intro hx
      exact absurd ⟨hx.1, hx.2.1⟩ h

/-- C1 counterexample: `put` on an occupied key is a no-op, so the second
`put(1, 20)` leaves the value 10 in place and `get(1) ≠ Some 20`. -/
theorem umap_put_no_overwrite_counterexample :
    ((((UMap.new Nat).put 1 10).put 1 20).get 1 = some 10) ∧
    ((((UMap.new Nat).put 1 10).put 1 20).get 1 ≠ some 20) := by decide

/-- C1 (amended): for a map satisfying the data-model invariant,
read-after-write holds for keys not yet present, and `put` on an occupied
key is a no-op leaving the map unchanged. -/
theorem umap_put_get_read_after_write {α : Type} (M : UMap α) (k : Nat) (v : α)
    (hInv : M.MInv) :
    (M.get k = none → (M.put k v).get k = some v) ∧
    (∀ w, M.get k = some w → M.put k v = M) := by
  constructor
  · intro h
    rw [UMap.put]
    by_cases h1 : M.vec.length = 0
    · rw [if_pos h1]
      unfold UMap.get
      dsimp only
      rw [if_pos ⟨Nat.le_refl k, Nat.le_refl k⟩, Nat.sub_self]
      exact getD_set_eq (by rw [List.length_replicate]; omega) (some v) none
    · rw [if_neg h1]
      by_cases h2 : M.len = 0
      · rw [if_pos h2]
        unfold UMap.get
        dsimp only
        rw [if_pos ⟨Nat.le_refl k, Nat.le_refl k⟩, Nat.sub_self]
        exact getD_set_eq (by omega) (some v) none
      · obtain ⟨i1, i2, i3, i4, i5, i6⟩ := hInv.2.2 h2
        rw [if_neg h2]
        by_cases h3 : k < M.offset
        · rw [if_pos h3]
          unfold UMap.get
          dsimp only
          rw [if_pos ⟨Nat.le_refl k, by omega⟩, Nat.sub_self,
            putLowVec_getD hInv h2 h3 0, if_neg (by omega), if_pos rfl]
        · rw [if_neg h3]
          by_cases h4 : M.offset + M.vec.length ≤ k
          · rw [if_pos h4]
            unfold UMap.get
            dsimp only
            rw [if_pos ⟨by omega, Nat.le_refl k⟩]
            exact getD_set_eq (by rw [List.length_append, List.length_replicate]; omega)
              (some v) none
          · rw [if_neg h4]
            have hnone : (M.vec.getD (k - M.offset) none).isNone = true := by
              by_cases hb : M.min ≤ k ∧ k ≤ M.max
              · unfold UMap.get at h
                rw [if_pos hb] at h
                rw [h]
                rfl
              · cases hx : M.vec.getD (k - M.offset) none with
                | none => rfl
                | some w =>
                  exfalso
                  have hs : (M.vec.getD (k - M.offset) none).isSome = true := by
                    rw [hx]
                    rfl
                  have := i6 (k - M.offset) (isSome_getD_lt_length hs) hs
                  rw [show k - M.offset + M.offset = k by omega] at this
                  exact hb ⟨this.1, this.2⟩
            rw [if_pos hnone]
            unfold UMap.get
            dsimp only
            have hget : (M.vec.set (k - M.offset) (some v)).getD (k - M.offset) none = some v :=
              getD_set_eq (by omega) (some v) none
            by_cases hc1 : k < M.min
            · simp only [if_pos hc1]
              rw [if_pos ⟨Nat.le_refl k, by omega⟩]
              exact hget
            · simp only [if_neg hc1]
              by_cases hc2 : M.max < k
              · simp only [if_pos hc2]
                rw [if_pos ⟨by omega, Nat.le_refl k⟩]
                exact hget
              · simp only [if_neg hc2]
                rw [if_pos ⟨by omega, by omega⟩]
                exact hget
  · intro w h
    obtain ⟨hb1, hb2, hslot⟩ := get_eq_some_iff.mp h
    have hs : (M.vec.getD (k - M.offset) none).isSome = true := by
      rw [hslot]
      rfl
    have hidx : k - M.offset < M.vec.length := isSome_getD_lt_length hs
    have hlen : M.len ≠ 0 := by
      intro h0
      have : countSome M.vec = 0 := by rw [← hInv.1, h0]
      rw [getD_none_of_countSome_zero this (k - M.offset)] at hslot
      cases hslot
    obtain ⟨i1, i2, i3, i4, i5, i6⟩ := hInv.2.2 hlen
    rw [UMap.put]
    rw [if_neg (by omega), if_neg hlen, if_neg (by omega), if_neg (by omega)]
    rw [if_neg (by rw [hslot]; simp)]

theorem umap_put_get_read_after_write_witness :
    ((UMap.new Nat).put 3 10).MInv ∧
    ((((UMap.new Nat).put 3 10).get 4 = none →
        ((((UMap.new Nat).put 3 10).put 4 20)).get 4 = some 20) ∧
      (∀ w, ((UMap.new Nat).put 3 10).get 4 = some w →
        ((UMap.new Nat).put 3 10).put 4 20 = (UMap.new Nat).put 3 10)) :=
  ⟨by decide, umap_put_get_read_after_write ((UMap.new Nat).put 3 10) 4 20 (by decide)⟩

theorem UMap.get_def {α : Type} (m : UMap α) (id : Nat) :
    m.get id = if m.min ≤ id ∧ id ≤ m.max then m.vec.getD (id - m.offset) none else none := rfl

theorem mem_elems_iff {s : USet} (hInv : s.Inv) {k : Nat} :
    k ∈ s.elems ↔ s.contains k = true := by
  unfold USet.elems
  rw [List.mem_map]
  constructor
  · rintro ⟨i, hi, rfl⟩
    rw [List.mem_filter, List.mem_range] at hi
    by_cases h0 : s.len = 0
    · exfalso
      have : countTrue s.vec = 0 := by rw [← hInv.1, h0]
      rw [getD_false_of_countTrue_zero this i] at hi
      exact absurd hi.2 (by simp)
    · obtain ⟨i1, i2, i3, i4, i5, i6⟩ := hInv.2.2 h0
      have hb := i6 i hi.1 hi.2
      rw [contains_true_iff]
      refine ⟨hb.1, hb.2, ?_⟩
      rw [show i + s.offset - s.offset = i by omega]
      exact hi.2
  · intro hc
    obtain ⟨hb1, hb2, hslot⟩ := contains_true_iff.mp hc
    by_cases h0 : s.len = 0
    · exfalso
      have : countTrue s.vec = 0 := by rw [← hInv.1, h0]
      rw [getD_false_of_countTrue_zero this] at hslot
      cases hslot
    · obtain ⟨i1, i2, i3, i4, i5, i6⟩ := hInv.2.2 h0
      refine ⟨k - s.offset, ?_, by omega⟩
      rw [List.mem_filter, List.mem_range]
      exact ⟨getD_true_lt_length hslot, hslot⟩

theorem elems_nodup (s : USet) : s.elems.Nodup := by
  unfold USet.elems
  apply List.Nodup.map
  · exact fun a b hab => Nat.add_right_cancel hab
  · exact ((List.nodup_range _).filter _)

theorem getChecked_eq_some_get {α : Type} {m : UMap α} {id : Nat} {v : Option α}
    (h : m.getChecked id = some v) : m.get id = v := by
  rw [UMap.getChecked] at h
  rw [UMap.get_def]
  by_cases hb : m.min ≤ id ∧ id ≤ m.max
  · rw [if_pos hb] at h ⊢
    rw [List.get?_eq_getElem?] at h
    rw [List.getD_eq_getElem?_getD, h]
    rfl
  · rw [if_neg hb] at h ⊢
    cases h
    rfl

theorem foldlM_getChecked_eq_foldl {α : Type} (m : UMap α) (d : Nat) (L : List Nat)
    (v0 w : List (Option α))
    (h : L.foldlM (fun v id => (m.getChecked id).map (fun x => v.set (id - d) x)) v0
      = some w) :
    w = L.foldl (fun v id => v.set (id - d) (m.get id)) v0 := by
  induction L generalizing v0 with
  | nil =>
    cases h
    rfl
  | cons id rest ih =>
    rw [List.foldlM_cons] at h
    cases hg : m.getChecked id with
    | none =>
      rw [hg] at h
      simp at h
    | some v =>
      rw [hg] at h
      simp only [Option.map_some', Option.bind_eq_bind, Option.some_bind] at h
      rw [List.foldl_cons, getChecked_eq_some_get hg]
      exact ih _ h

/-- C8 counterexample: `submap` of `{2 ↦ 10}` onto the key-set `{2, 3}` has
one present entry but reports `len = 2`; every read the run performs is
defined (the checked run completes). -/
theorem umap_submap_len_counterexample :
    ((UMap.new Nat).put 2 10).submapChecked ((USet.empty.push 2).push 3)
      = some (((UMap.new Nat).put 2 10).submap ((USet.empty.push 2).push 3)) ∧
    (((UMap.new Nat).put 2 10).submap ((USet.empty.push 2).push 3)).len = 2 ∧
    countSome (((UMap.new Nat).put 2 10).submap ((USet.empty.push 2).push 3)).vec = 1 ∧
    ((UMap.new Nat).put 2 10).contains 2 = true ∧
    ((UMap.new Nat).put 2 10).contains 3 = false ∧
    ((USet.empty.push 2).push 3).contains 2 = true ∧
    ((USet.empty.push 2).push 3).contains 3 = true := by decide

/-- C8 (amended): whenever `submap` completes without an undefined read
(`submapChecked` returns a result), that result retains exactly the keys
present in both the map and the key-set, mapped to their values in the map,
but its `len` field is the key-set's `len` (which overcounts keys of `S`
absent from `M`); an empty key-set yields the canonical empty map. -/
theorem umap_submap_spec {α : Type} (M : UMap α) (S : USet) (hS : S.Inv)
    (R : UMap α) (h : M.submapChecked S = some R) :
    R.len = S.len ∧
    (S.len = 0 → R = UMap.new α) ∧
    (S.len ≠ 0 → ∀ k, R.get k = if S.contains k = true then M.get k else none) := by
  rw [UMap.submapChecked] at h
  by_cases h0 : S.len = 0
  · rw [if_pos h0] at h
    cases h
    exact ⟨h0.symm, fun _ => rfl, fun hne => absurd h0 hne⟩
  · rw [if_neg h0] at h
    dsimp only at h
    cases hfold : (S.elems).foldlM
        (fun w id => (M.getChecked id).map (fun v => w.set (id - S.min) v))
        (List.replicate (S.max - S.min + 1) (none : Option α)) with
    | none =>
      rw [hfold] at h
      cases h
    | some w =>
      rw [hfold] at h
      simp only [Option.map_some'] at h
      cases h
      have hw := foldlM_getChecked_eq_foldl M S.min S.elems _ w hfold
      subst hw
      obtain ⟨i1, i2, i3, i4, i5, i6⟩ := hS.2.2 h0
      refine ⟨rfl, fun hc => absurd hc h0, fun _ k => ?_⟩
      rw [UMap.get_def]
      dsimp only
      have hpoint := foldl_set_getElem? M.get S.min S.elems (elems_nodup S)
        (fun i hi => (contains_true_iff.mp ((mem_elems_iff hS).mp hi)).1)
        (List.replicate (S.max - S.min + 1) (none : Option α))
        (fun i hi => by
          have hb := contains_true_iff.mp ((mem_elems_iff hS).mp hi)
          rw [List.length_replicate]
          omega)
      by_cases hc : S.contains k = true
      · obtain ⟨hb1, hb2, hslot⟩ := contains_true_iff.mp hc
        rw [if_pos hc, if_pos ⟨hb1, hb2⟩]
        rw [List.getD_eq_getElem?_getD, hpoint (k - S.min)]
        rw [show k - S.min + S.min = k by omega]
        rw [if_pos ((mem_elems_iff hS).mpr hc)]
        rfl
      · rw [if_neg hc]
        by_cases hb : S.min ≤ k ∧ k ≤ S.max
        · rw [if_pos hb]
          rw [List.getD_eq_getElem?_getD, hpoint (k - S.min)]
          rw [show k - S.min + S.min = k by omega]
          rw [if_neg (fun hmem => hc ((mem_elems_iff hS).mp hmem))]
          rw [List.getElem?_replicate]
          by_cases hlt : k - S.min < S.max - S.min + 1
          · rw [if_pos hlt]
            rfl
          · rw [if_neg hlt]
            rfl
        · rw [if_neg hb]

/-- The concrete result of `{2 ↦ 10}.submap({2, 3})`, used to witness
`umap_submap_spec`. -/
def submapResult : UMap Nat :=
  { vec := [some 10, none], len := 2, offset := 2, min := 2, max := 3 }

theorem umap_submap_spec_witness :
    ((USet.empty.push 2).push 3).Inv ∧
    (((UMap.new Nat).put 2 10).submapChecked ((USet.empty.push 2).push 3)
      = some submapResult) ∧
    (submapResult.len = ((USet.empty.push 2).push 3).len ∧
      (((USet.empty.push 2).push 3).len = 0 → submapResult = UMap.new Nat) ∧
      (((USet.empty.push 2).push 3).len ≠ 0 → ∀ k, submapResult.get k
        = if ((USet.empty.push 2).push 3).contains k = true
          then ((UMap.new Nat).put 2 10).get k else none)) :=
  ⟨by decide, by decide,
    umap_submap_spec ((UMap.new Nat).put 2 10) ((USet.empty.push 2).push 3) (by decide)
      submapResult (by decide)⟩

/-! ## Set algebra (C7) -/

theorem getD_map_range (n j : Nat) (f : Nat → Bool) :
    ((List.range n).map f).getD j false = if j < n then f j else false := by
  rw [List.getD_eq_getElem?_getD, List.getElem?_map]
  by_cases h : j < n
  · rw [if_pos h, List.getElem?_range h]
    rfl
  · rw [if_neg h, List.getElem?_len_le (by rw [List.length_range]; omega)]
    rfl

theorem countTrue_map_range (n : Nat) (f : Nat → Bool) :
    countTrue ((List.range n).map f) = (List.range n).countP f := by
  unfold countTrue
  rw [List.countP_map]
  apply List.countP_congr
  intro x _
  exact Iff.rfl

theorem countP_range_comm (n d : Nat) (p : Nat → Bool) :
    (List.range n).countP (fun j => p (j + d)) = (List.range' d n).countP p := by
  rw [countP_range'_shift]
  apply List.countP_congr
  intro x _
  rw [Nat.add_comm d x]

theorem beq_refl (a : USet) : USet.beq a a = true := by
  unfold USet.beq
  rw [show decide (a.len = a.len) = true by simp, show decide (a.min = a.min) = true by simp,
    show decide (a.max = a.max) = true by simp]
  simp only [Bool.true_and]
  rw [all_zip_beq_iff]
  intro j h1 h2
  rfl

theorem beq_empty_left {a : USet} (hInv : a.Inv) (h0 : a.len = 0) :
    USet.beq USet.empty a = true := by
  obtain ⟨hoff, hmin, hmax⟩ := hInv.2.1 h0
  unfold USet.beq USet.empty USet.with_capacity
  dsimp only
  rw [show decide (0 = a.len) = true by simp [h0.symm],
    show decide (0 = a.min) = true by simp [hmin.symm],
    show decide (0 = a.max) = true by simp [hmax.symm]]
  simp only [Bool.true_and]
  rw [all_zip_beq_iff]
  intro j h1 h2
  exfalso
  revert h1
  simp

theorem beq_true_intro {r a : USet} (hr1 : r.offset ≤ r.min)
    (hr2 : r.max < r.offset + r.vec.length)
    (ha1 : a.offset ≤ a.min) (ha2 : a.max < a.offset + a.vec.length)
    (hlen : r.len = a.len) (hmin : r.min = a.min) (hmax : r.max = a.max)
    (hmm : r.min ≤ r.max)
    (hwin : ∀ j, j ≤ r.max - r.min →
      r.vec.getD (r.min - r.offset + j) false = a.vec.getD (a.min - a.offset + j) false) :
    USet.beq r a = true := by
  unfold USet.beq
  rw [show decide (r.len = a.len) = true by simp [hlen],
    show decide (r.min = a.min) = true by simp [hmin],
    show decide (r.max = a.max) = true by simp [hmax]]
  simp only [Bool.true_and]
  rw [all_zip_beq_iff]
  intro j h1 h2
  have hj : j < r.max + 1 - r.min := by
    rw [List.length_take] at h1
    omega
  rw [window_getElem?, window_getElem?]
  rw [if_pos hj, if_pos (show j < a.max + 1 - a.min by omega)]
  have hrb : r.min - r.offset + j < r.vec.length := by omega
  have hab : a.min - a.offset + j < a.vec.length := by omega
  rw [List.getElem?_eq_getElem hrb, List.getElem?_eq_getElem hab]
  have hw := hwin j (by omega)
  rw [getD_eq_getElem false hrb, getD_eq_getElem false hab] at hw
  rw [hw]

theorem contains_window {a : USet} (h1 : a.offset ≤ a.min) {j : Nat}
    (hj : a.min + j ≤ a.max) :
    a.contains (a.min + j) = a.vec.getD (a.min - a.offset + j) false := by
  unfold USet.contains
  rw [show decide (a.min ≤ a.min + j) = true by simp,
    show decide (a.min + j ≤ a.max) = true by simp [hj]]
  simp only [Bool.true_and]
  rw [show a.min + j - a.offset = a.min - a.offset + j by omega]

theorem union_len_eq_countP {A B : USet} (hA : A.Inv) (hB : B.Inv) (N : Nat)
    (hN1 : A.max < N) (hN2 : B.max < N) :
    (A.union B).len = (List.range N).countP (fun k => A.contains k || B.contains k) := by
  rw [USet.union]
  by_cases ha0 : A.len = 0
  · rw [if_pos ha0]
    have hAf := contains_false_of_empty hA ha0
    by_cases hb0 : B.len = 0
    · rw [if_pos hb0]
      have hBf := contains_false_of_empty hB hb0
      show (0 : Nat) = _
      rw [eq_comm, List.countP_eq_zero]
      intro x _
      simp [hAf x, hBf x]
    · rw [if_neg hb0]
      rw [len_eq_countP_below hB N hN2]
      apply List.countP_congr
      intro x _
      simp [hAf x]
  · rw [if_neg ha0]
    by_cases hb0 : B.len = 0
    · rw [if_pos hb0]
      have hBf := contains_false_of_empty hB hb0
      rw [len_eq_countP_below hA N hN1]
      apply List.countP_congr
      intro x _
      simp [hBf x]
    · rw [if_neg hb0]
      dsimp only
      have ia := hA.2.2 ha0
      have ib := hB.2.2 hb0
      have e1 : Nat.min A.min B.min ≤ A.min := Nat.min_le_left _ _
      have e2 : Nat.min A.min B.min ≤ B.min := Nat.min_le_right _ _
      have e3 : A.max ≤ Nat.max A.max B.max := Nat.le_max_left _ _
      have e4 : B.max ≤ Nat.max A.max B.max := Nat.le_max_right _ _
      have e5 : Nat.max A.max B.max < N := Nat.max_lt.mpr ⟨hN1, hN2⟩
      have e6 : A.min ≤ A.max := ia.2.1
      have hsh : (List.range (Nat.max A.max B.max + 1 - Nat.min A.min B.min)).countP
          (fun j => A.contains (j + Nat.min A.min B.min)
            || B.contains (j + Nat.min A.min B.min))
          = (List.range' (Nat.min A.min B.min)
              (Nat.max A.max B.max + 1 - Nat.min A.min B.min)).countP
            (fun k => A.contains k || B.contains k) := by
        rw [countP_range'_shift]
        apply List.countP_congr
        intro x _
        rw [Nat.add_comm (Nat.min A.min B.min) x]
      rw [countTrue_map_range, hsh]
      rw [List.range_eq_range' N]
      rw [countP_range'_eq_middle 0 N (Nat.min A.min B.min) (Nat.max A.max B.max)
        (fun k => A.contains k || B.contains k) (by omega) (by omega) (by omega)
        (fun j hj1 hj2 => by
          show (A.contains j || B.contains j) = false
          rw [contains_false_of_lt (show j < A.min by omega),
            contains_false_of_lt (show j < B.min by omega)]
          rfl)
        (fun j hj1 hj2 => by
          show (A.contains j || B.contains j) = false
          rw [contains_false_of_gt (show A.max < j by omega),
            contains_false_of_gt (show B.max < j by omega)]
          rfl)]

theorem common_part_len_eq_countP {A B : USet} (hA : A.Inv) (hB : B.Inv) (N : Nat)
    (hN1 : A.max < N) (hN2 : B.max < N) :
    (A.common_part B).len = (List.range N).countP (fun k => A.contains k && B.contains k) := by
  have hout : ∀ j, j < Nat.max A.min B.min ∨ Nat.min A.max B.max < j →
      (A.contains j && B.contains j) = false := by
    intro j hj
    rcases hj with hj | hj
    · rcases lt_max_iff.mp hj with h | h
      · rw [contains_false_of_lt h]
        rfl
      · rw [contains_false_of_lt h]
        simp
    · rcases min_lt_iff.mp hj with h | h
      · rw [contains_false_of_gt h]
        rfl
      · rw [contains_false_of_gt h]
        simp
  rw [USet.common_part]
  by_cases h0 : A.len = 0 ∨ B.len = 0
  · rw [if_pos h0]
    show (0 : Nat) = _
    rw [eq_comm, List.countP_eq_zero]
    intro x _
    rcases h0 with h0 | h0
    · rw [contains_false_of_empty hA h0 x]
      simp
    · rw [contains_false_of_empty hB h0 x]
      simp
  · rw [if_neg h0]
    have ha0 : A.len ≠ 0 := fun h => h0 (Or.inl h)
    have hb0 : B.len ≠ 0 := fun h => h0 (Or.inr h)
    have ia := hA.2.2 ha0
    have ib := hB.2.2 hb0
    dsimp only
    cases hmn : (List.range' (Nat.max A.min B.min)
        (Nat.min A.max B.max + 1 - Nat.max A.min B.min)).find?
        (fun id => A.contains id && B.contains id) with
    | none =>
      have hnone := find?_range'_none hmn
      dsimp only
      show (0 : Nat) = _
      rw [eq_comm, List.countP_eq_zero]
      intro x hx
      rw [List.mem_range] at hx
      by_cases hin : Nat.max A.min B.min ≤ x ∧ x ≤ Nat.min A.max B.max
      · simp [hnone x hin.1 (by omega)]
      · simp [hout x (by omega)]
    | some mn =>
      obtain ⟨hpmn, hmn1, hmn2, hfirst⟩ := find?_range'_some hmn
      cases hmx : ((List.range' (Nat.max A.min B.min)
          (Nat.min A.max B.max + 1 - Nat.max A.min B.min)).reverse).find?
          (fun id => A.contains id && B.contains id) with
      | none =>
        exfalso
        have := find?_reverse_range'_none hmx mn hmn1 hmn2
        rw [hpmn] at this
        cases this
      | some mx =>
        obtain ⟨hpmx, hmx1, hmx2, hlast⟩ := find?_reverse_range'_some hmx
        have hmnmx : mn ≤ mx := by
          by_contra hlt
          have := hlast mn (by omega) hmn2
          rw [hpmn] at this
          cases this
        dsimp only
        have e1 : Nat.min A.max B.max ≤ A.max := Nat.min_le_left _ _
        have e2 : Nat.max A.min B.min ≤ mn := hmn1
        have hsh : (List.range (mx + 1 - mn)).countP
            (fun j => A.contains (j + mn) && B.contains (j + mn))
            = (List.range' mn (mx + 1 - mn)).countP
              (fun k => A.contains k && B.contains k) := by
          rw [countP_range'_shift]
          apply List.countP_congr
          intro x _
          rw [Nat.add_comm mn x]
        rw [countTrue_map_range, hsh]
        rw [List.range_eq_range' N]
        rw [countP_range'_eq_middle 0 N mn mx
          (fun k => A.contains k && B.contains k) (by omega) (by omega) (by omega)
          (fun j hj1 hj2 => by
            by_cases hin : Nat.max A.min B.min ≤ j
            · exact hfirst j hin (by omega)
            · exact hout j (by omega))
          (fun j hj1 hj2 => by
            by_cases hin : j ≤ Nat.min A.max B.max
            · exact hlast j hj1 (by omega)
            · exact hout j (by omega))]

theorem union_empty_beq {A : USet} (hA : A.Inv) :
    USet.beq (A.union USet.empty) A = true := by
  rw [USet.union]
  by_cases h0 : A.len = 0
  · rw [if_pos h0, if_pos (show USet.empty.len = 0 from rfl)]
    exact beq_empty_left hA h0
  · rw [if_neg h0, if_pos (show USet.empty.len = 0 from rfl)]
    exact beq_refl A

theorem xor_empty_beq {A : USet} (hA : A.Inv) :
    USet.beq (A.xor_set USet.empty) A = true := by
  rw [USet.xor_set]
  by_cases h0 : A.len = 0
  · rw [if_pos h0, if_pos (show USet.empty.len = 0 from rfl)]
    exact beq_empty_left hA h0
  · rw [if_neg h0, if_pos (show USet.empty.len = 0 from rfl)]
    exact beq_refl A

theorem union_self_beq {A : USet} (hA : A.Inv) :
    USet.beq (A.union A) A = true := by
  rw [USet.union]
  by_cases h0 : A.len = 0
  · rw [if_pos h0, if_pos h0]
    exact beq_empty_left hA h0
  · rw [if_neg h0, if_neg h0]
    obtain ⟨i1, i2, i3, i4, i5, i6⟩ := hA.2.2 h0
    dsimp only
    simp only [Nat.min_self, Nat.max_self]
    have hlenv : ((List.range (A.max + 1 - A.min)).map
        (fun j => A.contains (j + A.min) || A.contains (j + A.min))).length
        = A.max + 1 - A.min := by
      rw [List.length_map, List.length_range]
    apply beq_true_intro
    · exact Nat.le_refl _
    · dsimp only
      rw [hlenv]
      omega
    · exact i1
    · exact i3
    · dsimp only
      rw [countTrue_map_range]
      have hsh : (List.range (A.max + 1 - A.min)).countP
          (fun j => A.contains (j + A.min) || A.contains (j + A.min))
          = (List.range' A.min (A.max + 1 - A.min)).countP A.contains := by
        rw [countP_range'_shift]
        apply List.countP_congr
        intro x _
        rw [Nat.add_comm A.min x, Bool.or_self]
      rw [hsh, ← len_eq_countP_window hA h0]
    · rfl
    · rfl
    · exact i2
    · intro j hj
      dsimp only at hj ⊢
      rw [Nat.sub_self, Nat.zero_add, getD_map_range, if_pos (by omega), Bool.or_self,
        Nat.add_comm j A.min]
      exact contains_window i1 (by omega)

theorem common_self_beq {A : USet} (hA : A.Inv) :
    USet.beq (A.common_part A) A = true := by
  rw [USet.common_part]
  by_cases h0 : A.len = 0
  · rw [if_pos (Or.inl h0)]
    exact beq_empty_left hA h0
  · rw [if_neg (by intro h; rcases h with h | h <;> exact h0 h)]
    obtain ⟨i1, i2, i3, i4, i5, i6⟩ := hA.2.2 h0
    dsimp only
    simp only [Nat.min_self, Nat.max_self]
    have hcmin : (A.contains A.min && A.contains A.min) = true := by
      rw [contains_true_iff.mpr ⟨Nat.le_refl _, i2, i4⟩]
      rfl
    have hcmax : (A.contains A.max && A.contains A.max) = true := by
      rw [contains_true_iff.mpr ⟨i2, Nat.le_refl _, i5⟩]
      rfl
    have hrange : A.max + 1 - A.min = (A.max - A.min) + 1 := by omega
    have hfind1 : (List.range' A.min (A.max + 1 - A.min)).find?
        (fun id => A.contains id && A.contains id) = some A.min := by
      rw [hrange, List.range'_succ, List.find?_cons, hcmin]
    have hfind2 : ((List.range' A.min (A.max + 1 - A.min)).reverse).find?
        (fun id => A.contains id && A.contains id) = some A.max := by
      rw [hrange, List.range'_concat, List.reverse_append]
      simp only [List.reverse_singleton, List.singleton_append, List.find?_cons]
      rw [show A.min + 1 * (A.max - A.min) = A.max by omega, hcmax]
    rw [hfind1, hfind2]
    dsimp only
    have hlenv : ((List.range (A.max + 1 - A.min)).map
        (fun j => A.contains (j + A.min) && A.contains (j + A.min))).length
        = A.max + 1 - A.min := by
      rw [List.length_map, List.length_range]
    apply beq_true_intro
    · exact Nat.le_refl _
    · dsimp only
      rw [hlenv]
      omega
    · exact i1
    · exact i3
    · dsimp only
      rw [countTrue_map_range]
      have hsh : (List.range (A.max + 1 - A.min)).countP
          (fun j => A.contains (j + A.min) && A.contains (j + A.min))
          = (List.range' A.min (A.max + 1 - A.min)).countP A.contains := by
        rw [countP_range'_shift]
        apply List.countP_congr
        intro x _
        rw [Nat.add_comm A.min x, Bool.and_self]
      rw [hsh, ← len_eq_countP_window hA h0]
    · rfl
    · rfl
    · exact i2
    · intro j hj
      dsimp only at hj ⊢
      rw [Nat.sub_self, Nat.zero_add, getD_map_range, if_pos (by omega), Bool.and_self,
        Nat.add_comm j A.min]
      exact contains_window i1 (by omega)

theorem xor_self_beq {A : USet} (hA : A.Inv) :
    USet.beq (A.xor_set A) USet.empty = true := by
  rw [USet.xor_set]
  by_cases h0 : A.len = 0
  · rw [if_pos h0, if_pos h0]
    exact beq_refl USet.empty
  · rw [if_neg h0, if_neg h0]
    dsimp only
    simp only [Nat.min_self, Nat.max_self]
    have hp : ∀ x, ((A.contains x && !(A.contains x)) || (!(A.contains x) && A.contains x))
        = false := by
      intro x
      cases A.contains x <;> rfl
    have hfind1 : (List.range' A.min (A.max + 1 - A.min)).find?
        (fun id => (A.contains id && !(A.contains id)) || (!(A.contains id) && A.contains id))
        = none := by
      rw [List.find?_eq_none]
      intro x _
      rw [hp x]
      simp
    rw [hfind1]
    exact beq_refl USet.empty

/-- C7: on sets satisfying the data-model invariant, the algebra laws hold:
`A ∪ ∅ = A`, `A ∪ A = A`, `|A ∪ B| = |A| + |B| - |A ∩ B|`, `A ∩ A = A`,
`A ⊕ A = ∅`, `A ⊕ ∅ = A`, with `∪`/`∩`/`⊕` the `union`/`common_part`/
`xor_set` operations (the `+`/`*`/`^` operators) and equality the `USet`
`PartialEq`. -/
theorem uset_algebra_laws (A B : USet) (hA : A.Inv) (hB : B.Inv) :
    USet.beq (A.union USet.empty) A = true ∧
    USet.beq (A.union A) A = true ∧
    (A.union B).len = A.len + B.len - (A.common_part B).len ∧
    USet.beq (A.common_part A) A = true ∧
    USet.beq (A.xor_set A) USet.empty = true ∧
    USet.beq (A.xor_set USet.empty) A = true := by
  refine ⟨union_empty_beq hA, union_self_beq hA, ?_, common_self_beq hA,
    xor_self_beq hA, xor_empty_beq hA⟩
  have hU := union_len_eq_countP hA hB (A.max + B.max + 1) (by omega) (by omega)
  have hI := common_part_len_eq_countP hA hB (A.max + B.max + 1) (by omega) (by omega)
  have hA2 := len_eq_countP_below hA (A.max + B.max + 1) (by omega)
  have hB2 := len_eq_countP_below hB (A.max + B.max + 1) (by omega)
  have hkey := countP_or_and A.contains B.contains (List.range (A.max + B.max + 1))
  omega

theorem uset_algebra_laws_witness :
    ((USet.empty.push 1).push 3).Inv ∧ ((USet.empty.push 2).push 3).Inv ∧
    (USet.beq (((USet.empty.push 1).push 3).union USet.empty)
        ((USet.empty.push 1).push 3) = true ∧
      USet.beq (((USet.empty.push 1).push 3).union ((USet.empty.push 1).push 3))
        ((USet.empty.push 1).push 3) = true ∧
      (((USet.empty.push 1).push 3).union ((USet.empty.push 2).push 3)).len
        = ((USet.empty.push 1).push 3).len + ((USet.empty.push 2).push 3).len
          - (((USet.empty.push 1).push 3).common_part ((USet.empty.push 2).push 3)).len ∧
      USet.beq (((USet.empty.push 1).push 3).common_part ((USet.empty.push 1).push 3))
        ((USet.empty.push 1).push 3) = true ∧
      USet.beq (((USet.empty.push 1).push 3).xor_set ((USet.empty.push 1).push 3))
        USet.empty = true ∧
      USet.beq (((USet.empty.push 1).push 3).xor_set USet.empty)
        ((USet.empty.push 1).push 3) = true) :=
  ⟨by decide, by decide,
    uset_algebra_laws ((USet.empty.push 1).push 3) ((USet.empty.push 2).push 3)
      (by decide) (by decide)⟩
